import Mathlib

/-!
Verification development for the GraphFit curve-fitting backend
(`backend/services/fitting.py` and `backend/routes/fit.py`).

The estimators are embedded shallowly:

* All closed-form, comparison and bookkeeping logic is embedded over `ℚ`
  (the Python code computes with IEEE doubles; exact rational arithmetic is
  the idealisation used throughout, with the source's literal tolerances such
  as `1e-15` kept as the rationals `1/10^15`).
* The transcendental model functions (`_szyszkowski_continuous`, the sinc²
  diffraction model) are embedded over `ℝ` with `Real.log` / `Real.sin`.
* Number-to-string rendering (Python's `f"{v:.4f}"` etc.) has no exact
  embedding; every function that builds display strings takes an abstract
  rendering function `fmt` as a parameter and uses it exactly where the
  source formats a number.  The structure of every string (literal text,
  sign handling, joins) is kept faithful.
* The external SciPy solver `curve_fit` is not part of the repository; the
  parameters it returns are treated as an oracle: the post-processing that
  the source applies to them is embedded as a function of those parameters.
-/

namespace GraphFit

/-- Error taxonomy of the estimators (`ValueError`s and index errors raised
in `fitting.py`). -/
inductive FitErr where
  | degenerateInput
  | tooFewPoints
  | tooFewColumns
  | indexError
  deriving DecidableEq, Repr

/-- Result of `fit_straight_line`: the dict
`{m, c, equation, r_squared, description}`. -/
structure LineFit where
  m : ℚ
  c : ℚ
  equation : String
  r_squared : ℚ
  description : String
  deriving DecidableEq, Repr

/-- `sum_x = np.sum(x)` of `fit_straight_line` (x = first components). -/
def sumX (pts : List (ℚ × ℚ)) : ℚ := (pts.map (fun p => p.1)).sum

/-- `sum_y = np.sum(y)`. -/
def sumY (pts : List (ℚ × ℚ)) : ℚ := (pts.map (fun p => p.2)).sum

/-- `sum_xy = np.sum(x * y)`. -/
def sumXY (pts : List (ℚ × ℚ)) : ℚ := (pts.map (fun p => p.1 * p.2)).sum

/-- `sum_x2 = np.sum(x ** 2)`. -/
def sumX2 (pts : List (ℚ × ℚ)) : ℚ := (pts.map (fun p => p.1 ^ 2)).sum

/-- `Σy²`, used in the sum-expansion lemmas below. -/
def sumY2 (pts : List (ℚ × ℚ)) : ℚ := (pts.map (fun p => p.2 ^ 2)).sum

/-- The successful payload of an `Except`, for closed statements about
computed results. -/
def exOk {ε α : Type} : Except ε α → Option α
  | .ok a => some a
  | .error _ => none

/-- `denom = n * sum_x2 - sum_x ** 2`, the denominator of the closed-form
least-squares slope. -/
def lsqDenom (pts : List (ℚ × ℚ)) : ℚ :=
  (pts.length : ℚ) * sumX2 pts - sumX pts ^ 2

/-- `m = (n * sum_xy - sum_x * sum_y) / denom`. -/
def lsqM (pts : List (ℚ × ℚ)) : ℚ :=
  ((pts.length : ℚ) * sumXY pts - sumX pts * sumY pts) / lsqDenom pts

/-- `c = (sum_y - m * sum_x) / n`. -/
def lsqC (pts : List (ℚ × ℚ)) : ℚ :=
  (sumY pts - lsqM pts * sumX pts) / (pts.length : ℚ)

/-- `ss_res = np.sum((y - y_pred) ** 2)` with `y_pred = m * x + c`, the
residual sum of squares against the fit's own prediction. -/
def lsqSSRes (pts : List (ℚ × ℚ)) : ℚ :=
  (pts.map (fun p => (p.2 - (lsqM pts * p.1 + lsqC pts)) ^ 2)).sum

/-- `ss_tot = np.sum((y - np.mean(y)) ** 2)`. -/
def lsqSSTot (pts : List (ℚ × ℚ)) : ℚ :=
  (pts.map (fun p => (p.2 - sumY pts / (pts.length : ℚ)) ^ 2)).sum

/-- `r_sq = 1.0 - ss_res / ss_tot if ss_tot > 0 else 0.0`. -/
def lsqR2 (pts : List (ℚ × ℚ)) : ℚ :=
  if lsqSSTot pts > (0 : ℚ) then 1 - lsqSSRes pts / lsqSSTot pts else 0

/-- Shallow embedding of `fit_straight_line` (fitting.py lines 9–53); the
named definitions above embed its local variables one for one.  `fmt`
abstracts Python's float formatting. -/
def fit_straight_line (fmt : ℚ → String) (pts : List (ℚ × ℚ)) :
    Except FitErr LineFit :=
  if |lsqDenom pts| < 1 / 10 ^ 15 then .error .degenerateInput
  else
    .ok { m := lsqM pts, c := lsqC pts,
          equation := "y = " ++ fmt (lsqM pts) ++ "x "
            ++ (if lsqC pts ≥ 0 then "+" else "−") ++ " "
            ++ fmt (abs (lsqC pts)),
          r_squared := lsqR2 pts,
          description := "Fitted a straight line (y = mx + c) using least-squares regression. R² = "
            ++ fmt (lsqR2 pts) ++ "." }

/-- Scan for the first adjacent pair bracketing zero, returning the linear
interpolation (the `for` loop of `_find_zero_crossing`, lines 238–242). -/
def interpCross : List (ℚ × ℚ) → Option ℚ
  | (x1, y1) :: (x2, y2) :: rest =>
      if y1 * y2 ≤ 0 ∧ y1 ≠ y2 then
        some (x1 + (0 - y1) * (x2 - x1) / (y2 - y1))
      else interpCross ((x2, y2) :: rest)
  | _ => none

/-- One comparison step of the `np.argmin(np.abs(y))` fallback scan; a later
element replaces the current best only on a strictly smaller `|y|`, so the
first occurrence of the minimum wins, as `np.argmin` specifies. -/
def argminStep (b q : ℚ × ℚ) : ℚ × ℚ := if |q.2| < |b.2| then q else b

/-- Fallback of `_find_zero_crossing`: the x at the first index minimising
`|y|` (`np.argmin(np.abs(y))` keeps the first occurrence of the minimum). -/
def argminAbsX : List (ℚ × ℚ) → ℚ
  | [] => 0
  | p :: rest => (rest.foldl argminStep p).1

/-- Shallow embedding of `_find_zero_crossing` (fitting.py lines 236–244). -/
def find_zero_crossing (pts : List (ℚ × ℚ)) : ℚ :=
  (interpCross pts).getD (argminAbsX pts)

/-- Round-half-to-even of a rational to an integer (Python's `round`). -/
def roundHalfEven (q : ℚ) : ℤ :=
  let fl := ⌊q⌋
  let fr := q - fl
  if fr < 1 / 2 then fl
  else if 1 / 2 < fr then fl + 1
  else if fl % 2 = 0 then fl else fl + 1

/-- Python's `round(v, 4)`. -/
def pyRound4 (q : ℚ) : ℚ := (roundHalfEven (q * 10 ^ 4) : ℚ) / 10 ^ 4

/-- Insert a row into a list of rows sorted by first entry (used to embed
`arr[arr[:, 0].argsort()]`). -/
def insertRowByFirst (r : List ℚ) : List (List ℚ) → List (List ℚ)
  | [] => [r]
  | s :: rest =>
      if r.getD 0 0 ≤ s.getD 0 0 then r :: s :: rest
      else s :: insertRowByFirst r rest

/-- Sort rows by their first entry (`arr[arr[:, 0].argsort()]`). -/
def sortRowsByFirst : List (List ℚ) → List (List ℚ)
  | [] => []
  | r :: rest => insertRowByFirst r (sortRowsByFirst rest)

/-- Column `j` of a row matrix (`arr[:, j]`); rows are uniform in width for
all validated inputs, so the default value is never used there. -/
def colOf (rows : List (List ℚ)) (j : ℕ) : List ℚ :=
  rows.map (fun r => r.getD j 0)

/-- Result of `fit_photoelectric_vi`. -/
structure PhotoViResult where
  equation : String
  description : String
  stopping_potentials : List (String × ℚ)
  series_labels : List String
  series_count : ℕ
  r_squared : Option ℚ
  deriving DecidableEq, Repr

/-- Label selection shared shape of the multi-series estimators:
`columns[1:] if columns and len(columns) > 1 else [pattern(i) ...]`. -/
def seriesLabelsOf (columns : List String) (sc : ℕ) (pattern : ℕ → String) :
    List String :=
  if columns.length > 1 then columns.drop 1
  else (List.range sc).map pattern

/-- Synthesised label pattern of `fit_photoelectric_vi`: `Series {i+1}`. -/
def photoPattern (i : ℕ) : String := "Series " ++ toString (i + 1)

/-- Shallow embedding of `fit_photoelectric_vi` (fitting.py lines 247–282).
A supplied label list shorter than the series count makes the source's loop
raise an `IndexError` at `series_labels[i]`; that is the `.indexError`
branch. -/
def fit_photoelectric_vi (fmt : ℚ → String) (points : List (List ℚ))
    (columns : List String) : Except FitErr PhotoViResult :=
  let rows := sortRowsByFirst points
  let xs := colOf rows 0
  let sc := (rows.headD []).length - 1
  if sc < 1 then .error .tooFewColumns
  else
    let labels := seriesLabelsOf columns sc photoPattern
    if labels.length < sc then .error .indexError
    else
      let sps := (List.range sc).map (fun i =>
        (labels.getD i "",
         pyRound4 (find_zero_crossing (xs.zip (colOf rows (i + 1))))))
      .ok { equation := String.intercalate "; "
              (sps.map (fun p => p.1 ++ ": V_stop = " ++ fmt p.2 ++ " V")),
            description := "V_bias vs photocurrent for " ++ toString sc
              ++ " series. Stopping potentials found by interpolation where I → 0.",
            stopping_potentials := sps,
            series_labels := labels,
            series_count := sc,
            r_squared := none }

/-- `np.linspace a b k`: `k` evenly spaced points from `a` to `b` inclusive. -/
def linspaceQ (a b : ℚ) (k : ℕ) : List ℚ :=
  (List.range k).map (fun i => a + i * (b - a) / ((k : ℚ) - 1))

/-- Insert into a sorted list of rationals. -/
def insertQ (a : ℚ) : List ℚ → List ℚ
  | [] => [a]
  | b :: rest => if a ≤ b then a :: b :: rest else b :: insertQ a rest

/-- Insertion sort of rationals (ascending), embedding NumPy's sorts. -/
def sortQ : List ℚ → List ℚ
  | [] => []
  | a :: rest => insertQ a (sortQ rest)

/-- Insert a pair into a list of pairs sorted by first component. -/
def insertPairByFirst (a : ℚ × ℚ) : List (ℚ × ℚ) → List (ℚ × ℚ)
  | [] => [a]
  | b :: rest => if a.1 ≤ b.1 then a :: b :: rest else b :: insertPairByFirst a rest

/-- Sort `[x, y]` pairs by `x` (`arr[arr[:, 0].argsort()]` in `fit_cmc`). -/
def sortPairsByFirst : List (ℚ × ℚ) → List (ℚ × ℚ)
  | [] => []
  | a :: rest => insertPairByFirst a (sortPairsByFirst rest)

/-- `np.median` of a list (sorts, middle element or mean of the two middles). -/
def medianQ (l : List ℚ) : ℚ :=
  let s := sortQ l
  let n := s.length
  if n % 2 = 1 then s.getD (n / 2) 0
  else (s.getD (n / 2 - 1) 0 + s.getD (n / 2) 0) / 2

/-- Candidate breakpoints of `fit_cmc`'s grid search (fitting.py lines
145–150): `np.unique(concat(x[2:-2], linspace(x[2], x[-2], min(50, n))))`,
i.e. a sorted deduplicated merge. -/
def cmcCandidates (pts : List (ℚ × ℚ)) : List ℚ :=
  let xs := pts.map (fun p => p.1)
  let n := xs.length
  let inner := (xs.drop 2).take (n - 4)
  let lin := linspaceQ (xs.getD 2 0) (xs.getD (n - 2) 0) (min 50 n)
  (sortQ (inner ++ lin)).dedup

/-- The y-values on the right of a candidate breakpoint (`y[x >= x0]`). -/
def rightYs (pts : List (ℚ × ℚ)) (x0 : ℚ) : List ℚ :=
  (pts.filter (fun p => x0 ≤ p.1)).map (fun p => p.2)

/-- Number of points with `x ≥ x0`. -/
def rightCount (pts : List (ℚ × ℚ)) (x0 : ℚ) : ℕ := (rightYs pts x0).length

/-- Grid-search score of a candidate: `Σ(y_right − mean(y_right))²`. -/
def rightScore (pts : List (ℚ × ℚ)) (x0 : ℚ) : ℚ :=
  let ys := rightYs pts x0
  let plateau := ys.sum / (ys.length : ℚ)
  (ys.map (fun v => (v - plateau) ^ 2)).sum

/-- One iteration of the grid-search loop (fitting.py lines 152–167).  The
source's `best_rss = inf` initial accumulator is the `none` case: any
qualifying candidate (≥ 2 right-side points) beats it; afterwards a
candidate replaces the accumulator only on a strictly smaller score. -/
def gridStep (pts : List (ℚ × ℚ)) (acc : Option (ℚ × ℚ)) (c : ℚ) :
    Option (ℚ × ℚ) :=
  if rightCount pts c < 2 then acc
  else
    match acc with
    | none => some (rightScore pts c, c)
    | some (br, bc) =>
        if rightScore pts c < br then some (rightScore pts c, c)
        else some (br, bc)

/-- The whole grid-search loop over the candidate list. -/
def gridFold (pts : List (ℚ × ℚ)) (cands : List ℚ) : Option (ℚ × ℚ) :=
  cands.foldl (gridStep pts) none

/-- Phase-1 result of `fit_cmc`: the best grid-search breakpoint; when every
candidate is skipped, `best_x0` keeps its initial value `np.median(x)`. -/
def gridSearchX0 (pts : List (ℚ × ℚ)) : ℚ :=
  match gridFold pts (cmcCandidates pts) with
  | some p => p.2
  | none => medianQ (pts.map (fun p => p.1))

/-- The sorting and minimum-count precondition of `fit_cmc` (lines 111–119)
followed by its grid-search phase. -/
def cmcPhase1 (points : List (ℚ × ℚ)) : Except FitErr ℚ :=
  let pts := sortPairsByFirst points
  if pts.length < 5 then .error .tooFewPoints
  else .ok (gridSearchX0 pts)

/-- Per-series dict of `fit_pohls_damped`. -/
structure DampedFit where
  slope : ℚ
  intercept : ℚ
  damping_constant : ℚ
  r_squared : ℚ
  deriving DecidableEq, Repr

/-- Result of `fit_pohls_damped`. -/
structure DampedResult where
  equation : String
  description : String
  series_fits : List (String × DampedFit)
  series_labels : List String
  series_count : ℕ
  r_squared : Option ℚ
  deriving DecidableEq, Repr

/-- Synthesised label pattern of `fit_pohls_damped`: `I_d = {i+1}`. -/
def dampedPattern (i : ℕ) : String := "I_d = " ++ toString (i + 1)

/-- Synthesised label pattern of `fit_pohls_forced`: `Damping {i+1}`. -/
def forcedPattern (i : ℕ) : String := "Damping " ++ toString (i + 1)

/-- The per-series loop of `fit_pohls_damped` (fitting.py lines 409–428).
`lnQ` abstracts `np.log` (which has no exact rational embedding; none of the
properties settled here depend on its values).  A series with fewer than 2
strictly positive amplitudes is skipped; a failing inner line fit aborts the
whole call, as the uncaught `ValueError` does in the source. -/
def dampedGo (lnQ : ℚ → ℚ) (fmt : ℚ → String) (ts : List ℚ)
    (rows : List (List ℚ)) (labels : List String) :
    List ℕ → Except FitErr (List (String × DampedFit) × List String)
  | [] => .ok ([], [])
  | i :: rest =>
      if h : i < labels.length then
        let label := labels.get ⟨i, h⟩
        let phi := colOf rows (i + 1)
        let masked := (ts.zip phi).filter (fun p => 0 < p.2)
        if masked.length < 2 then dampedGo lnQ fmt ts rows labels rest
        else
          match fit_straight_line fmt (masked.map (fun p => (p.1, lnQ p.2))) with
          | .error e => .error e
          | .ok res =>
              match dampedGo lnQ fmt ts rows labels rest with
              | .error e => .error e
              | .ok (fits, parts) =>
                  .ok ((label, { slope := res.m, intercept := res.c,
                                 damping_constant := -res.m,
                                 r_squared := res.r_squared }) :: fits,
                       (label ++ ": δ = " ++ fmt (-res.m)) :: parts)
      else .error .indexError

/-- Shallow embedding of `fit_pohls_damped` (fitting.py lines 387–440). -/
def fit_pohls_damped (lnQ : ℚ → ℚ) (fmt : ℚ → String)
    (points : List (List ℚ)) (columns : List String) :
    Except FitErr DampedResult :=
  let rows := sortRowsByFirst points
  let ts := colOf rows 0
  let sc := (rows.headD []).length - 1
  if sc < 1 then .error .tooFewColumns
  else
    let labels := seriesLabelsOf columns sc dampedPattern
    match dampedGo lnQ fmt ts rows labels (List.range sc) with
    | .error e => .error e
    | .ok (fits, parts) =>
        .ok { equation := if parts.isEmpty then "No valid fits"
                          else String.intercalate "; " parts,
              description := "Damped oscillation: ln(φ) vs t fitted for "
                ++ toString fits.length
                ++ " damping levels. Slope = −δ (damping constant).",
              series_fits := fits,
              series_labels := labels,
              series_count := sc,
              r_squared := none }

/-- Per-series dict of `fit_pohls_forced`. -/
structure Resonance where
  resonance_frequency : ℚ
  max_amplitude : ℚ
  deriving DecidableEq, Repr

/-- Result of `fit_pohls_forced`. -/
structure ForcedResult where
  equation : String
  description : String
  resonances : List (String × Resonance)
  series_labels : List String
  series_count : ℕ
  r_squared : Option ℚ
  deriving DecidableEq, Repr

/-- `np.argmax` with its value: first index attaining the maximum. -/
def argmaxPair (l : List ℚ) : ℕ × ℚ :=
  match l.enum with
  | [] => (0, 0)
  | p :: rest => rest.foldl (fun b q => if b.2 < q.2 then q else b) p

/-- The per-series loop of `fit_pohls_forced` (fitting.py lines 464–474). -/
def forcedGo (fmt : ℚ → String) (freq : List ℚ) (rows : List (List ℚ))
    (labels : List String) :
    List ℕ → Except FitErr (List (String × Resonance) × List String)
  | [] => .ok ([], [])
  | i :: rest =>
      if h : i < labels.length then
        let label := labels.get ⟨i, h⟩
        let amp := colOf rows (i + 1)
        let pk := argmaxPair amp
        let f_res := freq.getD pk.1 0
        match forcedGo fmt freq rows labels rest with
        | .error e => .error e
        | .ok (ress, parts) =>
            .ok ((label, { resonance_frequency := f_res,
                           max_amplitude := amp.getD pk.1 0 }) :: ress,
                 (label ++ ": f_res = " ++ fmt f_res) :: parts)
      else .error .indexError

/-- Shallow embedding of `fit_pohls_forced` (fitting.py lines 443–486). -/
def fit_pohls_forced (fmt : ℚ → String) (points : List (List ℚ))
    (columns : List String) : Except FitErr ForcedResult :=
  let rows := sortRowsByFirst points
  let freq := colOf rows 0
  let sc := (rows.headD []).length - 1
  if sc < 1 then .error .tooFewColumns
  else
    let labels := seriesLabelsOf columns sc forcedPattern
    match forcedGo fmt freq rows labels (List.range sc) with
    | .error e => .error e
    | .ok (ress, parts) =>
        .ok { equation := String.intercalate "; " parts,
              description := "Forced oscillation: amplitude vs frequency for "
                ++ toString sc
                ++ " damping values. Resonance at peak amplitude for each.",
              resonances := ress,
              series_labels := labels,
              series_count := sc,
              r_squared := none }

/-- The number of strictly positive amplitudes of series `i` in
`fit_pohls_damped` (`mask.sum()` over `phi > 0`, paired with the sorted time
column exactly as the loop body builds them). -/
def dampedPosCount (points : List (List ℚ)) (i : ℕ) : ℕ :=
  (((colOf (sortRowsByFirst points) 0).zip
    (colOf (sortRowsByFirst points) (i + 1))).filter
      (fun p => 0 < p.2)).length

/-- Caller-visible error categories of the `/api/fit` route. -/
inductive ApiError where
  | tooFewRows
  | badRowWidth
  | tooFewColumns
  | cmcTooFewRows
  | unknownMode
  deriving DecidableEq, Repr

/-- Which estimator the dispatcher would invoke. -/
inductive ModeCall where
  | straightLine
  | cmc
  | photoelectricVi
  | photoelectricH
  | singleSlit
  | newtonsRings
  | pohlsDamped
  | pohlsForced
  | polarization
  deriving DecidableEq, Repr

/-- `MULTI_SERIES_MODES` of routes/fit.py. -/
def MULTI_SERIES_MODES : List String :=
  ["photoelectric-1-1", "photoelectric-1-3", "pohls-damped", "pohls-forced"]

/-- The supported mode catalog (the `elif` chain of routes/fit.py). -/
def knownModes : List String :=
  ["straight-line", "cmc", "photoelectric-1-1", "photoelectric-1-3",
   "photoelectric-1-2", "single-slit", "newtons-rings", "pohls-damped",
   "pohls-forced", "polarization"]

/-- The mode `elif` chain of the route (routes/fit.py lines 66–92), after
row validation has passed.  It returns which estimator would be invoked
rather than invoking it, so an `.error` result means no model function runs. -/
def modeSelect (mode : String) (points : List (List ℚ)) :
    Except ApiError ModeCall :=
  if mode = "straight-line" then .ok .straightLine
  else if mode = "cmc" then
    if points.length < 4 then .error .cmcTooFewRows else .ok .cmc
  else if mode = "photoelectric-1-1" ∨ mode = "photoelectric-1-3" then
    .ok .photoelectricVi
  else if mode = "photoelectric-1-2" then .ok .photoelectricH
  else if mode = "single-slit" then .ok .singleSlit
  else if mode = "newtons-rings" then .ok .newtonsRings
  else if mode = "pohls-damped" then .ok .pohlsDamped
  else if mode = "pohls-forced" then .ok .pohlsForced
  else if mode = "polarization" then .ok .polarization
  else .error .unknownMode

/-- Shallow embedding of the validation and dispatch logic of the `/api/fit`
route (routes/fit.py lines 41–92). -/
def dispatch (mode : String) (points : List (List ℚ)) :
    Except ApiError ModeCall :=
  if points.length < 2 then .error .tooFewRows
  else if mode ∉ MULTI_SERIES_MODES then
    if points.all (fun pt => pt.length = 2) then modeSelect mode points
    else .error .badRowWidth
  else
    let width := (points.headD []).length
    if width < 2 then .error .tooFewColumns
    else if points.all (fun pt => pt.length = width) then
      modeSelect mode points
    else .error .badRowWidth

/-- Shallow embedding of `_szyszkowski_continuous` (fitting.py lines 56–83):
`x` clamped to be non-negative, plateau evaluated at `max(x0, 1e-15)`,
branch select on `x < x0`. -/
noncomputable def szyszkowskiContinuous (x a b c x0 : ℝ) : ℝ :=
  let x_safe := max x 0
  let plateau := a + b * Real.log (1 + c * max x0 (1 / 10 ^ 15))
  if x < x0 then a + b * Real.log (1 + c * x_safe) else plateau

/-- `ss_res = np.sum((y - y_pred) ** 2)` of the nonlinear estimators. -/
noncomputable def ssResR (y ypred : List ℝ) : ℝ :=
  ((y.zip ypred).map (fun p => (p.1 - p.2) ^ 2)).sum

/-- `ss_tot = np.sum((y - np.mean(y)) ** 2)` of the nonlinear estimators. -/
noncomputable def ssTotR (y : List ℝ) : ℝ :=
  (y.map (fun v => (v - y.sum / (y.length : ℝ)) ^ 2)).sum

/-- The shared R² computation `1 − SS_res/SS_tot if ss_tot > 0 else 0.0`
(inlined in `fit_cmc` lines 198–202 and `fit_single_slit` lines 340–343),
against a given prediction vector. -/
noncomputable def rSquaredOf (y ypred : List ℝ) : ℝ :=
  if ssTotR y > (0 : ℝ) then 1 - ssResR y ypred / ssTotR y else 0

/-- Result dict of `fit_cmc` (fitting.py lines 209–229). -/
structure CmcResult where
  cmc_value : ℝ
  cmc_surface_tension : ℝ
  a : ℝ
  b : ℝ
  c : ℝ
  equation : String
  equation_pre_cmc : String
  equation_post_cmc : String
  r_squared : ℝ
  description : String

/-- The post-solver tail of `fit_cmc` (fitting.py lines 193–229) as a
function of the sorted data and the four parameters produced by the external
`curve_fit` call.  Note line 196 computes the reported plateau as
`a + b·log(1 + c·x0)` without the `max(x0, 1e-15)` clamp used inside the
model itself. -/
noncomputable def cmcFinish (fmt : ℝ → String) (xs ys : List ℝ)
    (aOpt bOpt cOpt x0Opt : ℝ) : CmcResult :=
  let plateau := aOpt + bOpt * Real.log (1 + cOpt * x0Opt)
  let ypred := xs.map (fun xi => szyszkowskiContinuous xi aOpt bOpt cOpt x0Opt)
  let r_sq := rSquaredOf ys ypred
  { cmc_value := x0Opt,
    cmc_surface_tension := plateau,
    a := aOpt, b := bOpt, c := cOpt,
    equation := "CMC ≈ " ++ fmt x0Opt,
    equation_pre_cmc := "γ = " ++ fmt aOpt ++ " "
      ++ (if bOpt ≥ 0 then "+" else "−") ++ " " ++ fmt (abs bOpt)
      ++ "·ln(1 + " ++ fmt cOpt ++ "·x)",
    equation_post_cmc := "γ = " ++ fmt plateau,
    r_squared := r_sq,
    description := "Szyszkowski-type model: γ = a + b·ln(1 + c·x) for x < CMC, γ = constant for x ≥ CMC. Breakpoint at x = "
      ++ fmt x0Opt ++ " gives the CMC. R² = " ++ fmt r_sq ++ "." }

/-- The pre-breakpoint curve `a + b·ln(1 + c·x)` of the CMC model. -/
noncomputable def cmcPreCurve (a b c x : ℝ) : ℝ := a + b * Real.log (1 + c * x)

/-- Shallow embedding of `_sinc_squared` (fitting.py lines 307–310). -/
noncomputable def sincSquared (theta I0 alpha theta0 : ℝ) : ℝ :=
  let beta := alpha * (theta - theta0)
  if |beta| < 1 / 10 ^ 10 then I0 else I0 * (Real.sin beta / beta) ^ 2

/-- Result dict of `fit_single_slit`. -/
structure SlitResult where
  equation : String
  description : String
  I0 : ℝ
  alpha : ℝ
  theta0 : ℝ
  r_squared : ℝ

/-- The post-solver tail of `fit_single_slit` (fitting.py lines 340–355) as
a function of the sorted data and the parameters produced by `curve_fit`. -/
noncomputable def slitFinish (fmt : ℝ → String) (theta intensity : List ℝ)
    (I0 alpha theta0 : ℝ) : SlitResult :=
  let ypred := theta.map (fun t => sincSquared t I0 alpha theta0)
  let r_sq := rSquaredOf intensity ypred
  { equation := "I = " ++ fmt I0 ++ " × [sin(" ++ fmt alpha ++ "·(θ−"
      ++ fmt theta0 ++ ")) / (" ++ fmt alpha ++ "·(θ−" ++ fmt theta0
      ++ "))]²",
    description := "Single slit diffraction fitted with sinc² model. Central maximum at θ₀ = "
      ++ fmt theta0 ++ ". I₀ = " ++ fmt I0 ++ ". R² = " ++ fmt r_sq ++ ".",
    I0 := I0, alpha := alpha, theta0 := theta0,
    r_squared := r_sq }

/-- Modelled from the spec: the repository's gradient-descent CMC estimator
(`fit_cmc_2` / `GradientDescentOptimizer`) is imported by
`backend/test_cmc_methods.py` but its definition is not among the sources;
this section models §4.4 of the spec.  Cost function: sum of squared
residuals of the continuous model, with the large sentinel `1e30` for the
invalid region `c ≤ 0` or `x0 ≤ 0`.  Parameter order: `(a, b, c, x0)`. -/
noncomputable def gdCost (pts : List (ℝ × ℝ)) (p : Fin 4 → ℝ) : ℝ :=
  if p 2 ≤ 0 ∨ p 3 ≤ 0 then 10 ^ 30
  else (pts.map (fun q =>
    (q.2 - szyszkowskiContinuous q.1 (p 0) (p 1) (p 2) (p 3)) ^ 2)).sum

/-- Modelled from the spec: per-parameter normalisation scale — each
parameter's own initial absolute value, or 1.0 when that value is ≈ 0. -/
noncomputable def gdScale (p0 : Fin 4 → ℝ) : Fin 4 → ℝ :=
  fun i => if |p0 i| < 1 / 10 ^ 12 then 1 else |p0 i|

/-- Modelled from the spec: clipping of the normalised parameter vector to
the normalised bounds (`c ≥ 1e-12`, `x0 ∈ [min x, max x]`, `a, b` free). -/
noncomputable def gdClip (scale : Fin 4 → ℝ) (xmin xmax : ℝ)
    (v : Fin 4 → ℝ) : Fin 4 → ℝ :=
  fun i =>
    if i = 2 then max (v 2) ((1 / 10 ^ 12) / scale 2)
    else if i = 3 then min (max (v 3) (xmin / scale 3)) (xmax / scale 3)
    else v i

/-- State of one Adam optimisation run (OptimizerState of the spec). -/
structure AdamState where
  x : Fin 4 → ℝ
  m1 : Fin 4 → ℝ
  m2 : Fin 4 → ℝ
  t : ℕ
  stopped : Bool

/-- Modelled from the spec: one Adam iteration in normalised space —
central-difference gradient with step `1e-7`, early stop when the squared
gradient norm drops below `1e-14`, bias-corrected moments with
`β1 = 0.9, β2 = 0.999, ε = 1e-8`, learning rate `1e-3`, then clipping. -/
noncomputable def adamStep (costN : (Fin 4 → ℝ) → ℝ)
    (clip : (Fin 4 → ℝ) → Fin 4 → ℝ) (s : AdamState) : AdamState :=
  if s.stopped then s
  else
    let h : ℝ := 1 / 10 ^ 7
    let g : Fin 4 → ℝ := fun i =>
      (costN (Function.update s.x i (s.x i + h))
        - costN (Function.update s.x i (s.x i - h))) / (2 * h)
    let gnorm2 := (List.finRange 4).foldl (fun acc i => acc + g i ^ 2) 0
    if gnorm2 < 1 / 10 ^ 14 then { s with stopped := true }
    else
      let t := s.t + 1
      let b1 : ℝ := 9 / 10
      let b2 : ℝ := 999 / 1000
      let m1 : Fin 4 → ℝ := fun i => b1 * s.m1 i + (1 - b1) * g i
      let m2 : Fin 4 → ℝ := fun i => b2 * s.m2 i + (1 - b2) * g i ^ 2
      let x : Fin 4 → ℝ := fun i =>
        s.x i - (1 / 10 ^ 3) * (m1 i / (1 - b1 ^ t))
          / (Real.sqrt (m2 i / (1 - b2 ^ t)) + 1 / 10 ^ 8)
      { x := clip x, m1 := m1, m2 := m2, t := t, stopped := false }

/-- Modelled from the spec: a full optimisation run (iteration cap 5000 in
the multi-start driver), returning the final normalised parameter vector. -/
noncomputable def adamRun (costN : (Fin 4 → ℝ) → ℝ)
    (clip : (Fin 4 → ℝ) → Fin 4 → ℝ) (iters : ℕ) (v0 : Fin 4 → ℝ) :
    Fin 4 → ℝ :=
  ((List.range iters).foldl (fun s _ => adamStep costN clip s)
    { x := v0, m1 := fun _ => 0, m2 := fun _ => 0, t := 0, stopped := false }).x

/-- Deterministic linear congruential generator used to model the driver's
fixed-seed random perturbations. -/
def lcgNext (s : ℕ) : ℕ := (1103515245 * s + 12345) % 2 ^ 31

/-- Modelled from the spec: the ~12 starting points of the multi-start
driver — the heuristic seed, 3 seeds sweeping `x0` across fractions
0.3/0.5/0.7 of the data range, 3 seeds scaling `c` by 0.1×/1×/10×, and 4
multiplicative ±50% perturbations of the heuristic seed drawn from a
deterministically seeded generator. -/
noncomputable def gdSeeds (p0 : Fin 4 → ℝ) (xmin xmax : ℝ) :
    List (Fin 4 → ℝ) :=
  [p0]
  ++ ([(3 : ℝ) / 10, 5 / 10, 7 / 10].map (fun f =>
        Function.update p0 3 (xmin + f * (xmax - xmin))))
  ++ ([(1 : ℝ) / 10, 1, 10].map (fun f =>
        Function.update p0 2 (f * p0 2)))
  ++ ((List.range 4).map (fun k => fun i : Fin 4 =>
        p0 i * (((lcgNext^[4 * k + (i : ℕ) + 1] 123456789 : ℕ) : ℝ)
          / 2 ^ 31 + 1 / 2)))

/-- Largest element of a list of reals (`np.max`; 0 for the empty list,
which no validated caller passes). -/
noncomputable def listMax (l : List ℝ) : ℝ := l.foldl max (l.headD 0)

/-- Smallest element of a list of reals (`np.min`). -/
noncomputable def listMin (l : List ℝ) : ℝ := l.foldl min (l.headD 0)

/-- Insertion into a sorted list of reals. -/
noncomputable def insertR (a : ℝ) : List ℝ → List ℝ
  | [] => [a]
  | b :: rest => if a ≤ b then a :: b :: rest else b :: insertR a rest

/-- Insertion sort of reals. -/
noncomputable def sortR : List ℝ → List ℝ
  | [] => []
  | a :: rest => insertR a (sortR rest)

/-- `np.median` over the reals. -/
noncomputable def medianR (l : List ℝ) : ℝ :=
  let s := sortR l
  let n := s.length
  if n % 2 = 1 then s.getD (n / 2) 0
  else (s.getD (n / 2 - 1) 0 + s.getD (n / 2) 0) / 2

/-- Insertion into a list of real pairs sorted by first component. -/
noncomputable def insertPairR (a : ℝ × ℝ) : List (ℝ × ℝ) → List (ℝ × ℝ)
  | [] => [a]
  | b :: rest => if a.1 ≤ b.1 then a :: b :: rest else b :: insertPairR a rest

/-- Sort real pairs by first component. -/
noncomputable def sortPairsR : List (ℝ × ℝ) → List (ℝ × ℝ)
  | [] => []
  | a :: rest => insertPairR a (sortPairsR rest)

/-- Modelled from the spec: the heuristic seed of §4.3/§4.4 —
`a₀ = max y`, `b₀ = min y − max y`, `c₀ = 1/min(x>0)` (or 1 when no positive
x), `x0₀ = median x`. -/
noncomputable def gdHeuristicSeed (xs ys : List ℝ) : Fin 4 → ℝ :=
  fun i =>
    if i = 0 then listMax ys
    else if i = 1 then listMin ys - listMax ys
    else if i = 2 then
      (if (xs.filter (fun v => 0 < v)).isEmpty then 1
       else 1 / listMin (xs.filter (fun v => 0 < v)))
    else medianR xs

/-- Modelled from the spec: the multi-start gradient-descent CMC estimator
`fit_cmc_2`.  Each start is optimised in its own normalised space for 5000
iterations; the globally lowest final cost wins, first-found winning ties;
the winner is post-processed exactly like the `curve_fit` output of
`fit_cmc`. -/
noncomputable def fit_cmc_2 (fmt : ℝ → String) (points : List (ℝ × ℝ)) :
    CmcResult :=
  let pts := sortPairsR points
  let xs := pts.map (fun p => p.1)
  let ys := pts.map (fun p => p.2)
  let xmin := listMin xs
  let xmax := listMax xs
  let p0 := gdHeuristicSeed xs ys
  let runFrom : (Fin 4 → ℝ) → ℝ × (Fin 4 → ℝ) := fun seed =>
    let scale := gdScale seed
    let costN : (Fin 4 → ℝ) → ℝ := fun v => gdCost pts (fun i => v i * scale i)
    let vFinal := adamRun costN (gdClip scale xmin xmax) 5000
      (fun i => seed i / scale i)
    let pFinal : Fin 4 → ℝ := fun i => vFinal i * scale i
    (gdCost pts pFinal, pFinal)
  let best := (gdSeeds p0 xmin xmax).foldl
    (fun acc seed =>
      let r := runFrom seed
      match acc with
      | none => some r
      | some b => if r.1 < b.1 then some r else some b)
    none
  match best with
  | some b => cmcFinish fmt xs ys (b.2 0) (b.2 1) (b.2 2) (b.2 3)
  | none => cmcFinish fmt xs ys 0 0 0 0

/-- Trivial rational renderer used to instantiate `fmt` in concrete
evaluations (the string fields are irrelevant to the numeric claims). -/
def fmt0 : ℚ → String := fun _ => ""

/-- Trivial real renderer used to instantiate `fmt` in concrete
evaluations. -/
def fmtR0 : ℝ → String := fun _ => ""

/-- The loop condition of `_find_zero_crossing` at index `k`:
`y[k]·y[k+1] ≤ 0` and `y[k] ≠ y[k+1]`. -/
def BrCond (pts : List (ℚ × ℚ)) (k : ℕ) : Prop :=
  (pts.getD k (0, 0)).2 * (pts.getD (k + 1) (0, 0)).2 ≤ 0 ∧
    (pts.getD k (0, 0)).2 ≠ (pts.getD (k + 1) (0, 0)).2

instance (pts : List (ℚ × ℚ)) (k : ℕ) : Decidable (BrCond pts k) := by
  unfold BrCond; infer_instance

/-- The interpolation value of `_find_zero_crossing` at index `j`. -/
def crossFormula (pts : List (ℚ × ℚ)) (j : ℕ) : ℚ :=
  (pts.getD j (0, 0)).1 +
    (0 - (pts.getD j (0, 0)).2) *
      ((pts.getD (j + 1) (0, 0)).1 - (pts.getD j (0, 0)).1) /
      ((pts.getD (j + 1) (0, 0)).2 - (pts.getD j (0, 0)).2)

theorem interpCross_first :
    ∀ (pts : List (ℚ × ℚ)) (j : ℕ), j + 1 < pts.length →
      (∀ k, k < j → ¬ BrCond pts k) → BrCond pts j →
      interpCross pts = some (crossFormula pts j)
  | [], j, hj, _, _ => by simp at hj
  | [p], j, hj, _, _ => by simp at hj
  | (x1, y1) :: (x2, y2) :: rest, 0, hj, _, hbr => by
      have hc : y1 * y2 ≤ 0 ∧ y1 ≠ y2 := by
        simpa [BrCond] using hbr
      simp [interpCross, crossFormula, hc]
  | (x1, y1) :: (x2, y2) :: rest, j + 1, hj, hmin, hbr => by
      have h0 : ¬ BrCond ((x1, y1) :: (x2, y2) :: rest) 0 :=
        hmin 0 (Nat.succ_pos j)
      have hc : ¬ (y1 * y2 ≤ 0 ∧ y1 ≠ y2) := by
        simpa [BrCond] using h0
      have hj' : j + 1 < ((x2, y2) :: rest).length := by
        simpa using Nat.lt_of_succ_lt_succ hj
      have hmin' : ∀ k, k < j → ¬ BrCond ((x2, y2) :: rest) k := by
        intro k hk hbad
        exact hmin (k + 1) (Nat.succ_lt_succ hk) (by
          simpa [BrCond, List.getD_cons_succ] using hbad)
      have hbr' : BrCond ((x2, y2) :: rest) j := by
        simpa [BrCond, List.getD_cons_succ] using hbr
      have ih := interpCross_first ((x2, y2) :: rest) j hj' hmin' hbr'
      simp only [interpCross, hc, if_false]
      rw [ih]
      simp [crossFormula, List.getD_cons_succ]

theorem interpCross_none :
    ∀ (pts : List (ℚ × ℚ)), (∀ k, k + 1 < pts.length → ¬ BrCond pts k) →
      interpCross pts = none
  | [], _ => rfl
  | [p], _ => rfl
  | (x1, y1) :: (x2, y2) :: rest, h => by
      have h0 : ¬ BrCond ((x1, y1) :: (x2, y2) :: rest) 0 :=
        h 0 (by simp)
      have hc : ¬ (y1 * y2 ≤ 0 ∧ y1 ≠ y2) := by
        simpa [BrCond] using h0
      have ih := interpCross_none ((x2, y2) :: rest) (by
        intro k hk hbad
        exact h (k + 1) (by simpa using Nat.succ_lt_succ hk) (by
          simpa [BrCond, List.getD_cons_succ] using hbad))
      simp only [interpCross, hc, if_false]
      exact ih

theorem argmin_foldl_spec (l : List (ℚ × ℚ)) :
    ∀ b : ℚ × ℚ,
      (l.foldl argminStep b = b ∨ l.foldl argminStep b ∈ l) ∧
      |(l.foldl argminStep b).2| ≤ |b.2| ∧
      ∀ q ∈ l, |(l.foldl argminStep b).2| ≤ |q.2| := by
  induction l with
  | nil => intro b; simp
  | cons p rest ih =>
      intro b
      rw [List.foldl_cons]
      by_cases hc : |p.2| < |b.2|
      · rw [show argminStep b p = p from if_pos hc]
        have h := ih p
        refine ⟨?_, ?_, ?_⟩
        · rcases h.1 with h1 | h1
          · exact Or.inr (by rw [h1]; exact List.mem_cons_self _ _)
          · exact Or.inr (List.mem_cons_of_mem _ h1)
        · exact le_trans h.2.1 (le_of_lt hc)
        · intro q hq
          rcases List.mem_cons.mp hq with rfl | hq'
          · exact h.2.1
          · exact h.2.2 q hq'
      · rw [show argminStep b p = b from if_neg hc]
        have h := ih b
        refine ⟨?_, ?_, ?_⟩
        · rcases h.1 with h1 | h1
          · exact Or.inl h1
          · exact Or.inr (List.mem_cons_of_mem _ h1)
        · exact h.2.1
        · intro q hq
          rcases List.mem_cons.mp hq with rfl | hq'
          · exact le_trans h.2.1 (le_of_not_lt hc)
          · exact h.2.2 q hq'

theorem argminAbsX_spec (pts : List (ℚ × ℚ)) (hne : pts ≠ []) :
    ∃ p ∈ pts, argminAbsX pts = p.1 ∧ ∀ q ∈ pts, |p.2| ≤ |q.2| := by
  match pts, hne with
  | p :: rest, _ =>
      have h := argmin_foldl_spec rest p
      refine ⟨rest.foldl argminStep p, ?_, rfl, ?_⟩
      · rcases h.1 with h1 | h1
        · rw [h1]; exact List.mem_cons_self _ _
        · exact List.mem_cons_of_mem _ h1
      · intro q hq
        rcases List.mem_cons.mp hq with rfl | hq'
        · exact h.2.1
        · exact h.2.2 q hq'

/-- C7: for every stopping-potential series, the zero-crossing finder
returns `x[j] + (0 − y[j])·(x[j+1] − x[j])/(y[j+1] − y[j])` at the first
index `j` where `y[j]·y[j+1] ≤ 0` with `y[j] ≠ y[j+1]`; on the example
`x = [0,1,2,3], y = [2,1,−1,−3]` it returns exactly `3/2`; and when no
adjacent pair brackets zero it returns the x-value of a point of minimal
`|y|`. -/
theorem claim_C7_zero_crossing :
    (∀ (pts : List (ℚ × ℚ)) (j : ℕ), j + 1 < pts.length →
      (∀ k, k < j → ¬ BrCond pts k) → BrCond pts j →
      find_zero_crossing pts = crossFormula pts j) ∧
    find_zero_crossing [(0, 2), (1, 1), (2, -1), (3, -3)] = 3 / 2 ∧
    (∀ pts : List (ℚ × ℚ), pts ≠ [] →
      (∀ k, k + 1 < pts.length → ¬ BrCond pts k) →
      ∃ p ∈ pts, find_zero_crossing pts = p.1 ∧ ∀ q ∈ pts, |p.2| ≤ |q.2|) := by
  refine ⟨?_, ?_, ?_⟩
  · intro pts j hj hmin hbr
    rw [find_zero_crossing, interpCross_first pts j hj hmin hbr]
    rfl
  · rw [find_zero_crossing,
      interpCross_first [(0, 2), (1, 1), (2, -1), (3, -3)] 1
        (by norm_num)
        (by
          intro k hk
          interval_cases k
          norm_num [BrCond])
        (by norm_num [BrCond])]
    norm_num [crossFormula]
  · intro pts hne hnc
    obtain ⟨p, hp, hx, hmin⟩ := argminAbsX_spec pts hne
    refine ⟨p, hp, ?_, hmin⟩
    rw [find_zero_crossing, interpCross_none pts (fun k hk => hnc k hk)]
    simpa using hx

/-- Closed witness for C7: the theorem applied to the concrete series of the
spec's test vector, with the first-bracket index `j = 1`. -/
theorem claim_C7_witness :
    (1 + 1 < ([( (0:ℚ), (2:ℚ)), (1, 1), (2, -1), (3, -3)] : List (ℚ × ℚ)).length) ∧
    find_zero_crossing [((0:ℚ), (2:ℚ)), (1, 1), (2, -1), (3, -3)] =
      crossFormula [((0:ℚ), (2:ℚ)), (1, 1), (2, -1), (3, -3)] 1 :=
  ⟨by norm_num,
   claim_C7_zero_crossing.1 [((0:ℚ), (2:ℚ)), (1, 1), (2, -1), (3, -3)] 1
     (by norm_num)
     (by intro k hk; interval_cases k; norm_num [BrCond])
     (by norm_num [BrCond])⟩

theorem multi_subset_known : ∀ m ∈ MULTI_SERIES_MODES, m ∈ knownModes := by
  intro m hm
  simp only [MULTI_SERIES_MODES, List.mem_cons, List.mem_singleton] at hm
  rcases hm with rfl | rfl | rfl | rfl | h
  · simp [knownModes]
  · simp [knownModes]
  · simp [knownModes]
  · simp [knownModes]
  · simp at h

/-- C9: the dispatcher rejects fewer than 2 rows; rejects cmc-mode requests
with fewer than 4 rows before any estimator call; any successful dispatch
implies uniform row width (exactly 2 for single-series modes, some uniform
width ≥ 2 for multi-series modes); and a mode outside the catalog that
passes row validation fails with `UnknownModeError`, never reaching a model
function. -/
theorem claim_C9_dispatcher :
    (∀ (mode : String) (points : List (List ℚ)), points.length < 2 →
      dispatch mode points = .error .tooFewRows) ∧
    (∀ points : List (List ℚ), 2 ≤ points.length → points.length < 4 →
      (∀ pt ∈ points, pt.length = 2) →
      dispatch "cmc" points = .error .cmcTooFewRows) ∧
    (∀ (mode : String) (points : List (List ℚ)) (call : ModeCall),
      dispatch mode points = .ok call →
      2 ≤ points.length ∧
      (if mode ∈ MULTI_SERIES_MODES
       then ∃ w, 2 ≤ w ∧ ∀ pt ∈ points, pt.length = w
       else ∀ pt ∈ points, pt.length = 2)) ∧
    (∀ (mode : String) (points : List (List ℚ)),
      mode ∉ knownModes → 2 ≤ points.length →
      (∀ pt ∈ points, pt.length = 2) →
      dispatch mode points = .error .unknownMode) := by
  refine ⟨?_, ?_, ?_, ?_⟩
  · intro mode points h
    simp only [dispatch]
    rw [if_pos h]
  · intro points h2 h4 hw
    have hall : points.all (fun pt => pt.length = 2) = true := by
      rw [List.all_eq_true]
      intro pt hpt
      exact decide_eq_true (hw pt hpt)
    simp only [dispatch]
    rw [if_neg (by omega : ¬ points.length < 2),
      if_pos (by decide : "cmc" ∉ MULTI_SERIES_MODES), if_pos hall]
    simp only [modeSelect]
    rw [if_neg (by decide : ¬ ("cmc" = "straight-line")), if_pos trivial,
      if_pos h4]
  · intro mode points call h
    simp only [dispatch] at h
    by_cases h1 : points.length < 2
    · rw [if_pos h1] at h; simp at h
    · rw [if_neg h1] at h
      by_cases h2 : mode ∈ MULTI_SERIES_MODES
      · rw [if_neg (not_not_intro h2)] at h
        by_cases h3 : (points.headD []).length < 2
        · rw [if_pos h3] at h; simp at h
        · rw [if_neg h3] at h
          by_cases h4 : points.all
              (fun pt => pt.length = (points.headD []).length) = true
          · refine ⟨by omega, ?_⟩
            rw [if_pos h2]
            exact ⟨(points.headD []).length, by omega, fun pt hpt =>
              of_decide_eq_true (List.all_eq_true.mp h4 pt hpt)⟩
          · rw [if_neg h4] at h; simp at h
      · rw [if_pos h2] at h
        by_cases h3 : points.all (fun pt => pt.length = 2) = true
        · refine ⟨by omega, ?_⟩
          rw [if_neg h2]
          exact fun pt hpt => of_decide_eq_true (List.all_eq_true.mp h3 pt hpt)
        · rw [if_neg h3] at h; simp at h
  · intro mode points hmode h2 hw
    have hnm : mode ∉ MULTI_SERIES_MODES := fun hm =>
      hmode (multi_subset_known mode hm)
    have hall : points.all (fun pt => pt.length = 2) = true := by
      rw [List.all_eq_true]
      intro pt hpt
      exact decide_eq_true (hw pt hpt)
    have hne : ¬ (mode = "straight-line") ∧ ¬ (mode = "cmc") ∧
        ¬ (mode = "photoelectric-1-1") ∧ ¬ (mode = "photoelectric-1-3") ∧
        ¬ (mode = "photoelectric-1-2") ∧ ¬ (mode = "single-slit") ∧
        ¬ (mode = "newtons-rings") ∧ ¬ (mode = "pohls-damped") ∧
        ¬ (mode = "pohls-forced") ∧ ¬ (mode = "polarization") := by
      simpa [knownModes, not_or] using hmode
    simp only [dispatch]
    rw [if_neg (by omega : ¬ points.length < 2), if_pos hnm, if_pos hall]
    simp only [modeSelect]
    rw [if_neg hne.1, if_neg hne.2.1,
      if_neg (by simp [hne.2.2.1, hne.2.2.2.1] :
        ¬ (mode = "photoelectric-1-1" ∨ mode = "photoelectric-1-3")),
      if_neg hne.2.2.2.2.1, if_neg hne.2.2.2.2.2.1,
      if_neg hne.2.2.2.2.2.2.1, if_neg hne.2.2.2.2.2.2.2.1,
      if_neg hne.2.2.2.2.2.2.2.2.1, if_neg hne.2.2.2.2.2.2.2.2.2]

/-- Closed witness for C9: the spec's own test vector — mode
`"not-a-real-mode"` with two valid rows fails with `UnknownModeError`, and a
3-row cmc request is rejected before the estimator. -/
theorem claim_C9_witness :
    ("not-a-real-mode" ∉ knownModes ∧
      dispatch "not-a-real-mode" [[(1 : ℚ), 2], [3, 4]] =
        .error .unknownMode) ∧
    dispatch "cmc" [[(1 : ℚ), 2], [3, 4], [5, 6]] = .error .cmcTooFewRows :=
  ⟨⟨by decide,
    claim_C9_dispatcher.2.2.2 "not-a-real-mode" [[(1 : ℚ), 2], [3, 4]]
      (by decide) (by simp) (by simp)⟩,
   claim_C9_dispatcher.2.1 [[(1 : ℚ), 2], [3, 4], [5, 6]] (by simp) (by simp)
     (by simp)⟩

/-- Counterexample to C3 as stated: for breakpoints `0 < x0 < 1e-15` the
model's plateau is evaluated at the clamped value `max(x0, 1e-15)`
(fitting.py line 78), so the model value at `x ≥ x0` differs from
`a + b·ln(1 + c·x0)`.  Here `x0 = 1e-16 > 0` and `x = 1 ≥ x0`. -/
theorem claim_C3_counterexample :
    0 < (1 : ℝ) / 10 ^ 16 ∧ (1 : ℝ) / 10 ^ 16 ≤ 1 ∧
    szyszkowskiContinuous 1 0 1 1 ((1 : ℝ) / 10 ^ 16) ≠
      0 + 1 * Real.log (1 + 1 * ((1 : ℝ) / 10 ^ 16)) := by
  refine ⟨by norm_num, by norm_num, ?_⟩
  simp only [szyszkowskiContinuous]
  rw [if_neg (by norm_num : ¬ ((1 : ℝ) < 1 / 10 ^ 16)),
    max_eq_right (by norm_num : (1 : ℝ) / 10 ^ 16 ≤ 1 / 10 ^ 15)]
  simp only [zero_add, one_mul]
  exact fun h =>
    absurd h (Real.log_lt_log (by norm_num) (by norm_num)).ne'

/-- C3 (amended): for every parameter tuple `(a, b, c, x0)` with
`x0 ≥ 1e-15` (the model's clamp threshold), the piecewise model is
continuous at the breakpoint — its value at every `x ≥ x0` is
`a + b·ln(1 + c·x0)`, which is the pre-breakpoint curve evaluated at `x0` —
and `fit_cmc`'s returned record carries exactly this plateau as
`cmc_surface_tension` and the optimised `x0` as `cmc_value` (together with
the `a, b, c, r_squared, equation_pre_cmc, equation_post_cmc` fields, which
its result structure contains by construction).  For `0 < x0 < 1e-15` the
plateau is instead evaluated at the clamp `max(x0, 1e-15)`. -/
theorem claim_C3_continuity (a b c x0 : ℝ) (h : (1 : ℝ) / 10 ^ 15 ≤ x0) :
    (∀ x, x0 ≤ x →
      szyszkowskiContinuous x a b c x0 = a + b * Real.log (1 + c * x0)) ∧
    a + b * Real.log (1 + c * x0) = cmcPreCurve a b c x0 ∧
    (∀ (fmt : ℝ → String) (xs ys : List ℝ),
      (cmcFinish fmt xs ys a b c x0).cmc_value = x0 ∧
      (cmcFinish fmt xs ys a b c x0).cmc_surface_tension =
        a + b * Real.log (1 + c * x0)) := by
  refine ⟨?_, rfl, ?_⟩
  · intro x hx
    simp only [szyszkowskiContinuous]
    rw [if_neg (not_lt.mpr hx), max_eq_left (le_trans (by norm_num) h)]
  · intro fmt xs ys
    exact ⟨rfl, rfl⟩

/-- Closed witness for C3: the amended theorem applied at
`(a, b, c, x0) = (0, 1, 1, 1)` and `x = 2`. -/
theorem claim_C3_witness :
    ((1 : ℝ) / 10 ^ 15 ≤ 1) ∧
    szyszkowskiContinuous 2 0 1 1 1 = 0 + 1 * Real.log (1 + 1 * 1) ∧
    (cmcFinish fmtR0 [1, 2] [5, 5] 0 1 1 1).cmc_value = 1 ∧
    (cmcFinish fmtR0 [1, 2] [5, 5] 0 1 1 1).cmc_surface_tension =
      0 + 1 * Real.log (1 + 1 * 1) :=
  ⟨by norm_num,
   (claim_C3_continuity 0 1 1 1 (by norm_num)).1 2 (by norm_num),
   ((claim_C3_continuity 0 1 1 1 (by norm_num)).2.2 fmtR0 [1, 2] [5, 5]).1,
   ((claim_C3_continuity 0 1 1 1 (by norm_num)).2.2 fmtR0 [1, 2] [5, 5]).2⟩

theorem sum_sq_sub (pts : List (ℚ × ℚ)) (t : ℚ) :
    (pts.map (fun p => (p.1 - t) ^ 2)).sum =
      (pts.map (fun p => p.1 ^ 2)).sum - 2 * t * (pts.map (fun p => p.1)).sum
        + (pts.length : ℚ) * t ^ 2 := by
  induction pts with
  | nil => simp
  | cons p rest ih =>
      simp only [List.map_cons, List.sum_cons, List.length_cons, ih]
      push_cast
      ring

theorem sum_res_expand (pts : List (ℚ × ℚ)) (m c : ℚ) :
    (pts.map (fun p => (p.2 - (m * p.1 + c)) ^ 2)).sum =
      sumY2 pts - 2 * m * sumXY pts - 2 * c * sumY pts + m ^ 2 * sumX2 pts
        + 2 * m * c * sumX pts + (pts.length : ℚ) * c ^ 2 := by
  induction pts with
  | nil => simp [sumY2, sumXY, sumY, sumX2, sumX]
  | cons p rest ih =>
      simp only [sumY2, sumXY, sumY, sumX2, sumX, List.map_cons,
        List.sum_cons, List.length_cons] at ih ⊢
      rw [ih]
      push_cast
      ring

theorem sum_tot_expand (pts : List (ℚ × ℚ)) (t : ℚ) :
    (pts.map (fun p => (p.2 - t) ^ 2)).sum =
      sumY2 pts - 2 * t * sumY pts + (pts.length : ℚ) * t ^ 2 := by
  induction pts with
  | nil => simp [sumY2, sumY]
  | cons p rest ih =>
      simp only [sumY2, sumY, List.map_cons, List.sum_cons,
        List.length_cons] at ih ⊢
      rw [ih]
      push_cast
      ring

theorem sum_map_sq_nonneg {α : Type} (l : List α) (f : α → ℚ) :
    0 ≤ (l.map (fun a => f a ^ 2)).sum := by
  apply List.sum_nonneg
  intro x hx
  obtain ⟨a, _, rfl⟩ := List.mem_map.mp hx
  positivity

theorem lsqDenom_nonneg (pts : List (ℚ × ℚ)) : 0 ≤ lsqDenom pts := by
  rcases eq_or_ne pts [] with rfl | hne
  · simp [lsqDenom, sumX, sumX2]
  · have hn : (0 : ℚ) < pts.length := by
      exact_mod_cast List.length_pos.mpr hne
    have key : lsqDenom pts =
        (pts.length : ℚ) *
          (pts.map (fun p => (p.1 - sumX pts / pts.length) ^ 2)).sum := by
      rw [sum_sq_sub]
      simp only [lsqDenom, sumX, sumX2]
      field_simp
      ring
    rw [key]
    exact mul_nonneg hn.le (sum_map_sq_nonneg _ _)

theorem noiseless_sums (pts : List (ℚ × ℚ)) (m₀ c₀ : ℚ)
    (h : ∀ p ∈ pts, p.2 = m₀ * p.1 + c₀) :
    sumY pts = m₀ * sumX pts + (pts.length : ℚ) * c₀ ∧
    sumXY pts = m₀ * sumX2 pts + c₀ * sumX pts := by
  induction pts with
  | nil => simp [sumX, sumY, sumXY, sumX2]
  | cons p rest ih =>
      have hp := h p (List.mem_cons_self _ _)
      have ih' := ih (fun q hq => h q (List.mem_cons_of_mem _ hq))
      simp only [sumX, sumY, sumXY, sumX2, List.map_cons, List.sum_cons,
        List.length_cons] at ih' ⊢
      constructor
      · rw [hp, ih'.1]
        push_cast
        ring
      · rw [hp, ih'.2]
        ring

/-- Counterexample to C1 as stated: (i) for the noiseless constant series
`y = 0·x + 5` on two distinct x-values the code returns `r_squared = 0`
(total variance is zero), not `1`; (ii) for the noiseless distinct-x input
`[(0, 0), (1e-8, 0)]` the denominator is `1e-16 < 1e-15`, so the code fails
with `DegenerateInputError` instead of returning the generating line. -/
theorem claim_C1_counterexample :
    (exOk (fit_straight_line fmt0 [(0, 5), (1, 5)])).map
        (fun r => r.r_squared) = some 0 ∧
    fit_straight_line fmt0 [(0, 0), (1 / 10 ^ 8, 0)] =
      .error .degenerateInput := by
  constructor
  · norm_num [fit_straight_line, lsqDenom, sumX, sumX2, lsqR2, lsqSSTot,
      lsqSSRes, lsqM, lsqC, sumXY, sumY, exOk]
  · rw [fit_straight_line,
      if_pos (by norm_num [lsqDenom, sumX, sumX2, abs_lt] :
        |lsqDenom [((0 : ℚ), (0 : ℚ)), (1 / 10 ^ 8, 0)]| < 1 / 10 ^ 15)]

/-- C1 (amended): whenever `|n·Σx² − (Σx)²| ≥ 1e-15` the estimator returns
the closed-form slope `m = (nΣxy − ΣxΣy)/(nΣx² − (Σx)²)` and intercept
`c = (Σy − mΣx)/n` (the definitions `lsqM`, `lsqC`); when
`|n·Σx² − (Σx)²| < 1e-15` it fails with `DegenerateInputError` (this
includes some inputs with distinct but extremely close x-values); and for
noiseless points `y = m₀x + c₀` with `|denom| ≥ 1e-15` and `m₀ ≠ 0` it
returns exactly `slope = m₀`, `intercept = c₀`, `r_squared = 1`
(for `m₀ = 0` all y are identical and `r_squared` is `0`, per C4). -/
theorem claim_C1_linear (fmt : ℚ → String) (pts : List (ℚ × ℚ)) :
    (1 / 10 ^ 15 ≤ |lsqDenom pts| →
      ∃ r, fit_straight_line fmt pts = .ok r ∧
        r.m = lsqM pts ∧ r.c = lsqC pts ∧ r.r_squared = lsqR2 pts) ∧
    (|lsqDenom pts| < 1 / 10 ^ 15 →
      fit_straight_line fmt pts = .error .degenerateInput) ∧
    (∀ m₀ c₀ : ℚ, 1 / 10 ^ 15 ≤ |lsqDenom pts| → m₀ ≠ 0 →
      (∀ p ∈ pts, p.2 = m₀ * p.1 + c₀) →
      ∃ r, fit_straight_line fmt pts = .ok r ∧
        r.m = m₀ ∧ r.c = c₀ ∧ r.r_squared = 1) := by
  refine ⟨?_, ?_, ?_⟩
  · intro hD
    exact ⟨_, by rw [fit_straight_line, if_neg (not_lt.mpr hD)], rfl, rfl, rfl⟩
  · intro hD
    rw [fit_straight_line, if_pos hD]
  · intro m₀ c₀ hD hm₀ hnl
    have hd0 : lsqDenom pts ≠ 0 := by
      intro h0
      rw [h0] at hD
      norm_num at hD
    have hDpos : 0 < lsqDenom pts :=
      lt_of_le_of_ne (lsqDenom_nonneg pts) (Ne.symm hd0)
    have hne : pts ≠ [] := by
      rintro rfl
      exact hd0 (by simp [lsqDenom, sumX, sumX2])
    have hnpos : (0 : ℚ) < (pts.length : ℚ) := by
      exact_mod_cast List.length_pos.mpr hne
    have hsums := noiseless_sums pts m₀ c₀ hnl
    have hm : lsqM pts = m₀ := by
      rw [lsqM, hsums.1, hsums.2, div_eq_iff hd0, lsqDenom]
      ring
    have hc : lsqC pts = c₀ := by
      rw [lsqC, hm, hsums.1, div_eq_iff (ne_of_gt hnpos)]
      ring
    have hres : lsqSSRes pts = 0 := by
      rw [lsqSSRes]
      have hz : pts.map (fun p => (p.2 - (lsqM pts * p.1 + lsqC pts)) ^ 2) =
          pts.map (fun _ => (0 : ℚ)) := by
        apply List.map_congr_left
        intro p hp
        rw [hm, hc, hnl p hp]
        ring
      rw [hz]
      simp
    have htot : lsqSSTot pts = m₀ ^ 2 * lsqDenom pts / pts.length := by
      rw [lsqSSTot]
      have hmap : pts.map (fun p => (p.2 - sumY pts / pts.length) ^ 2) =
          pts.map (fun p => (p.1 - sumX pts / pts.length) ^ 2 * m₀ ^ 2) := by
        apply List.map_congr_left
        intro p hp
        rw [hnl p hp, hsums.1]
        field_simp
        ring
      rw [hmap, List.sum_map_mul_right, sum_sq_sub]
      simp only [lsqDenom, sumX, sumX2]
      field_simp
      ring
    have hm2 : 0 < m₀ ^ 2 :=
      lt_of_le_of_ne (by positivity) (Ne.symm (pow_ne_zero 2 hm₀))
    have htotpos : 0 < lsqSSTot pts := by
      rw [htot]
      exact div_pos (mul_pos hm2 hDpos) hnpos
    have hr2 : lsqR2 pts = 1 := by
      rw [lsqR2, if_pos htotpos, hres]
      simp
    exact ⟨_, by rw [fit_straight_line, if_neg (not_lt.mpr hD)],
      hm, hc, by simpa using hr2⟩

/-- Closed witness for C1: the amended theorem applied to the noiseless
line `y = 2x + 1` sampled at `x = 0, 1`. -/
theorem claim_C1_witness :
    ((1 : ℚ) / 10 ^ 15 ≤ |lsqDenom [(0, 1), (1, 3)]|) ∧
    (∃ r, fit_straight_line fmt0 [(0, 1), (1, 3)] = .ok r ∧
      r.m = 2 ∧ r.c = 1 ∧ r.r_squared = 1) :=
  ⟨by norm_num [lsqDenom, sumX, sumX2],
   (claim_C1_linear fmt0 [(0, 1), (1, 3)]).2.2 2 1
     (by norm_num [lsqDenom, sumX, sumX2]) (by norm_num)
     (by intro p hp; fin_cases hp <;> norm_num)⟩

theorem sum_eq_const_mul (l : List ℝ) (t : ℝ) (h : ∀ v ∈ l, v = t) :
    l.sum = l.length * t := by
  induction l with
  | nil => simp
  | cons a rest ih =>
      have ha := h a (List.mem_cons_self _ _)
      have ih' := ih (fun v hv => h v (List.mem_cons_of_mem _ hv))
      simp only [List.sum_cons, List.length_cons, ih', ha]
      push_cast
      ring

theorem ssTotR_const (y : List ℝ) (t : ℝ) (h : ∀ v ∈ y, v = t) :
    ssTotR y = 0 := by
  rcases eq_or_ne y [] with rfl | hne
  · simp [ssTotR]
  · have hn : (0 : ℝ) < y.length := by
      exact_mod_cast List.length_pos.mpr hne
    rw [ssTotR, sum_eq_const_mul y t h]
    have hz : y.map (fun v => (v - ↑y.length * t / ↑y.length) ^ 2) =
        y.map (fun _ => (0 : ℝ)) := by
      apply List.map_congr_left
      intro v hv
      rw [h v hv]
      field_simp
    rw [hz]
    simp

theorem lsqSSTot_const (pts : List (ℚ × ℚ)) (t : ℚ)
    (h : ∀ p ∈ pts, p.2 = t) : lsqSSTot pts = 0 := by
  rcases eq_or_ne pts [] with rfl | hne
  · simp [lsqSSTot]
  · have hn : (0 : ℚ) < pts.length := by
      exact_mod_cast List.length_pos.mpr hne
    have hsum : sumY pts = (pts.length : ℚ) * t := by
      have := (noiseless_sums pts 0 t (fun p hp => by
        rw [h p hp]; ring)).1
      simpa using this
    rw [lsqSSTot, hsum]
    have hz : pts.map (fun p => (p.2 - ↑pts.length * t / ↑pts.length) ^ 2) =
        pts.map (fun _ => (0 : ℚ)) := by
      apply List.map_congr_left
      intro p hp
      rw [h p hp]
      field_simp
    rw [hz]
    simp

theorem fit_ok_inv (fmt : ℚ → String) (pts : List (ℚ × ℚ)) (r : LineFit)
    (h : fit_straight_line fmt pts = .ok r) :
    ¬ |lsqDenom pts| < 1 / 10 ^ 15 ∧ r.m = lsqM pts ∧ r.c = lsqC pts ∧
      r.r_squared = lsqR2 pts := by
  by_cases hd : |lsqDenom pts| < 1 / 10 ^ 15
  · rw [fit_straight_line, if_pos hd] at h
    exact Except.noConfusion h
  · rw [fit_straight_line, if_neg hd] at h
    injection h with h'
    rw [← h']
    exact ⟨hd, rfl, rfl, rfl⟩

/-- C4: every non-null R² is `1 − SS_res/SS_tot` against the estimator's own
prediction, and a zero total sum of squares (all y identical) yields exactly
`0.0` with the division never taken: shown for the linear fit (via its
returned record), for the CMC and sinc² post-processing (whose `r_squared`
field is `rSquaredOf` of their own model prediction), and for the shared
`rSquaredOf` guard itself. -/
theorem claim_C4_r_squared :
    (∀ (fmt : ℚ → String) (pts : List (ℚ × ℚ)) (r : LineFit),
      fit_straight_line fmt pts = .ok r →
      r.r_squared = lsqR2 pts ∧
      (0 < lsqSSTot pts → r.r_squared = 1 - lsqSSRes pts / lsqSSTot pts) ∧
      (lsqSSTot pts = 0 → r.r_squared = 0)) ∧
    (∀ (fmt : ℚ → String) (pts : List (ℚ × ℚ)) (t : ℚ) (r : LineFit),
      (∀ p ∈ pts, p.2 = t) → fit_straight_line fmt pts = .ok r →
      r.r_squared = 0) ∧
    (∀ (fmt : ℝ → String) (xs ys : List ℝ) (a b c x0 : ℝ),
      (cmcFinish fmt xs ys a b c x0).r_squared =
        rSquaredOf ys (xs.map (fun xi => szyszkowskiContinuous xi a b c x0))) ∧
    (∀ (fmt : ℝ → String) (theta intensity : List ℝ) (I0 alpha theta0 : ℝ),
      (slitFinish fmt theta intensity I0 alpha theta0).r_squared =
        rSquaredOf intensity
          (theta.map (fun t => sincSquared t I0 alpha theta0))) ∧
    (∀ y ypred : List ℝ,
      (0 < ssTotR y → rSquaredOf y ypred = 1 - ssResR y ypred / ssTotR y) ∧
      (ssTotR y = 0 → rSquaredOf y ypred = 0)) ∧
    (∀ (t : ℝ) (y ypred : List ℝ), (∀ v ∈ y, v = t) →
      rSquaredOf y ypred = 0) := by
  refine ⟨?_, ?_, fun _ _ _ _ _ _ _ => rfl, fun _ _ _ _ _ _ => rfl, ?_, ?_⟩
  · intro fmt pts r h
    obtain ⟨_, _, _, hr2⟩ := fit_ok_inv fmt pts r h
    refine ⟨hr2, ?_, ?_⟩
    · intro hpos
      rw [hr2, lsqR2, if_pos hpos]
    · intro h0
      rw [hr2, lsqR2, if_neg (by rw [h0]; exact lt_irrefl 0)]
  · intro fmt pts t r hconst h
    obtain ⟨_, _, _, hr2⟩ := fit_ok_inv fmt pts r h
    rw [hr2, lsqR2,
      if_neg (by rw [lsqSSTot_const pts t hconst]; exact lt_irrefl 0)]
  · intro y ypred
    constructor
    · intro hpos
      rw [rSquaredOf, if_pos hpos]
    · intro h0
      rw [rSquaredOf, if_neg (by rw [h0]; exact lt_irrefl 0)]
  · intro t y ypred hconst
    rw [rSquaredOf,
      if_neg (by rw [ssTotR_const y t hconst]; exact lt_irrefl 0)]

/-- Closed witness for C4: the constant series `y = 3` on two x-values gets
`r_squared = 0` from the linear estimator, and the shared guard returns `0`
on a constant target. -/
theorem claim_C4_witness :
    (exOk (fit_straight_line fmt0 [(0, 3), (1, 3)])).map
        (fun r => r.r_squared) = some 0 ∧
    rSquaredOf [(5 : ℝ), 5] [1, 2] = 0 := by
  constructor
  · have h1 : (1 : ℚ) / 10 ^ 15 ≤ |lsqDenom [(0, 3), (1, 3)]| := by
      norm_num [lsqDenom, sumX, sumX2]
    cases hfit : fit_straight_line fmt0 [(0, 3), (1, 3)] with
    | error e =>
        rw [fit_straight_line, if_neg (not_lt.mpr h1)] at hfit
        exact Except.noConfusion hfit
    | ok r =>
        simp only [exOk, Option.map_some']
        rw [claim_C4_r_squared.2.1 fmt0 [(0, 3), (1, 3)] 3 r (by simp) hfit]
  · exact claim_C4_r_squared.2.2.2.2.2 5 [(5 : ℝ), 5] [1, 2] (by simp)

theorem sum_map_sq_nonnegR {α : Type} (l : List α) (f : α → ℝ) :
    0 ≤ (l.map (fun a => f a ^ 2)).sum := by
  apply List.sum_nonneg
  intro x hx
  obtain ⟨a, _, rfl⟩ := List.mem_map.mp hx
  positivity

theorem ssResR_nonneg (y ypred : List ℝ) : 0 ≤ ssResR y ypred :=
  sum_map_sq_nonnegR (y.zip ypred) (fun p => p.1 - p.2)

theorem ssTotR_nonneg (y : List ℝ) : 0 ≤ ssTotR y :=
  sum_map_sq_nonnegR y (fun v => v - y.sum / (y.length : ℝ))

theorem rSquaredOf_le_one (y ypred : List ℝ) : rSquaredOf y ypred ≤ 1 := by
  rw [rSquaredOf]
  by_cases h : ssTotR y > (0 : ℝ)
  · rw [if_pos h]
    have := div_nonneg (ssResR_nonneg y ypred) h.le
    linarith
  · rw [if_neg h]
    norm_num

theorem lsqSSRes_nonneg (pts : List (ℚ × ℚ)) : 0 ≤ lsqSSRes pts :=
  sum_map_sq_nonneg pts (fun p => p.2 - (lsqM pts * p.1 + lsqC pts))

theorem lsq_res_le_tot (pts : List (ℚ × ℚ))
    (hD : 1 / 10 ^ 15 ≤ |lsqDenom pts|) : lsqSSRes pts ≤ lsqSSTot pts := by
  have hd0 : lsqDenom pts ≠ 0 := by
    intro h0
    rw [h0] at hD
    norm_num at hD
  have hDpos : 0 < lsqDenom pts :=
    lt_of_le_of_ne (lsqDenom_nonneg pts) (Ne.symm hd0)
  have hne : pts ≠ [] := by
    rintro rfl
    exact hd0 (by simp [lsqDenom, sumX, sumX2])
  have hnpos : (0 : ℚ) < (pts.length : ℚ) := by
    exact_mod_cast List.length_pos.mpr hne
  have hn0 : (pts.length : ℚ) ≠ 0 := ne_of_gt hnpos
  have key : lsqSSTot pts - lsqSSRes pts =
      ((pts.length : ℚ) * sumXY pts - sumX pts * sumY pts) ^ 2 /
        ((pts.length : ℚ) * lsqDenom pts) := by
    rw [lsqSSTot, lsqSSRes, sum_tot_expand, sum_res_expand, lsqC, lsqM]
    simp only [lsqDenom] at hd0 ⊢
    field_simp
    ring
  have hnn : 0 ≤ lsqSSTot pts - lsqSSRes pts := by
    rw [key]
    exact div_nonneg (sq_nonneg _) (mul_pos hnpos hDpos).le
  linarith

/-- Counterexample to C5 as stated: the lower bound `0 ≤ r_squared` fails
for the nonlinear estimators — the solver parameters are only bounded
(`c ≥ 1e-12`, `x0` within the data range), and the code applies no clamp, so
a converged-but-poor fit makes `1 − SS_res/SS_tot` negative.  Here a valid
5-point sorted input and in-bounds parameters `(a, b, c, x0) =
(100, 0, 1, 1)` give `r_squared = −11555/19 < 0`. -/
theorem claim_C5_counterexample :
    (cmcFinish fmtR0 [1, 2, 3, 4, 5] [0, 0, 0, 0, 10] 100 0 1 1).r_squared
        < 0 ∧
    ((1 : ℝ) / 10 ^ 12 ≤ 1) ∧ ((1 : ℝ) ≤ 1) ∧ ((1 : ℝ) ≤ 5) ∧
    ([(1 : ℝ), 2, 3, 4, 5].length = 5) := by
  refine ⟨?_, by norm_num, le_refl 1, by norm_num, rfl⟩
  have hpred : ([1, 2, 3, 4, 5] : List ℝ).map
      (fun xi => szyszkowskiContinuous xi 100 0 1 1) =
      [100, 100, 100, 100, 100] := by
    simp [szyszkowskiContinuous]
  have hfield : (cmcFinish fmtR0 [1, 2, 3, 4, 5] [0, 0, 0, 0, 10]
      100 0 1 1).r_squared =
      rSquaredOf [0, 0, 0, 0, 10]
        (([1, 2, 3, 4, 5] : List ℝ).map
          (fun xi => szyszkowskiContinuous xi 100 0 1 1)) := rfl
  have htot : ssTotR [(0 : ℝ), 0, 0, 0, 10] = 80 := by
    norm_num [ssTotR]
  have hres : ssResR [(0 : ℝ), 0, 0, 0, 10] [100, 100, 100, 100, 100] =
      48100 := by
    norm_num [ssResR, List.zip]
  rw [hfield, hpred, rSquaredOf, htot, hres,
    if_pos (by norm_num : (80 : ℝ) > 0)]
  norm_num

/-- C5 (amended): the linear estimator always returns
`0 ≤ r_squared ≤ 1`; every estimator's R² is at most 1 (and is exactly `0`
in the zero-total-variance case); but for the nonlinear fits (CMC, sinc²)
the lower bound is not guaranteed — their R² is computed from external
solver output and can be negative when the residual exceeds the total
variance. -/
theorem claim_C5_r2_bounds :
    (∀ (fmt : ℚ → String) (pts : List (ℚ × ℚ)) (r : LineFit),
      fit_straight_line fmt pts = .ok r →
      0 ≤ r.r_squared ∧ r.r_squared ≤ 1) ∧
    (∀ y ypred : List ℝ, rSquaredOf y ypred ≤ 1) ∧
    (∀ (fmt : ℝ → String) (xs ys : List ℝ) (a b c x0 : ℝ),
      (cmcFinish fmt xs ys a b c x0).r_squared ≤ 1) ∧
    (∀ (fmt : ℝ → String) (theta intensity : List ℝ) (I0 alpha theta0 : ℝ),
      (slitFinish fmt theta intensity I0 alpha theta0).r_squared ≤ 1) := by
  refine ⟨?_, rSquaredOf_le_one, ?_, ?_⟩
  · intro fmt pts r h
    obtain ⟨hd, _, _, hr2⟩ := fit_ok_inv fmt pts r h
    have hD := not_lt.mp hd
    rw [hr2, lsqR2]
    by_cases hpos : lsqSSTot pts > (0 : ℚ)
    · rw [if_pos hpos]
      constructor
      · have hle := lsq_res_le_tot pts hD
        have := (div_le_one hpos).mpr hle
        linarith
      · have := div_nonneg (lsqSSRes_nonneg pts) hpos.le
        linarith
    · rw [if_neg hpos]
      norm_num
  · intro fmt xs ys a b c x0
    exact rSquaredOf_le_one _ _
  · intro fmt theta intensity I0 alpha theta0
    exact rSquaredOf_le_one _ _

/-- Closed witness for C5: the amended theorem applied to the two-point
line `y = 2x + 1` (linear bounds) and to the counterexample's data (upper
bound only for the nonlinear path). -/
theorem claim_C5_witness :
    (∃ r, fit_straight_line fmt0 [(0, 1), (1, 3)] = .ok r ∧
      0 ≤ r.r_squared ∧ r.r_squared ≤ 1) ∧
    (cmcFinish fmtR0 [1, 2, 3, 4, 5] [0, 0, 0, 0, 10] 100 0 1 1).r_squared
      ≤ 1 := by
  constructor
  · have h1 : (1 : ℚ) / 10 ^ 15 ≤ |lsqDenom [(0, 1), (1, 3)]| := by
      norm_num [lsqDenom, sumX, sumX2]
    cases hfit : fit_straight_line fmt0 [(0, 1), (1, 3)] with
    | error e =>
        rw [fit_straight_line, if_neg (not_lt.mpr h1)] at hfit
        exact Except.noConfusion hfit
    | ok r =>
        exact ⟨r, rfl,
          claim_C5_r2_bounds.1 fmt0 [(0, 1), (1, 3)] r hfit⟩
  · exact claim_C5_r2_bounds.2.2.1 fmtR0 [1, 2, 3, 4, 5] [0, 0, 0, 0, 10]
      100 0 1 1

/-- C6 (spec-modelled): the multi-start gradient-descent CMC estimator is a
pure function of the input points — its random perturbations come from a
deterministically seeded generator, so two runs on the same input return the
same `cmc_value` — and its start list has exactly 11 entries (the heuristic
seed, 3 `x0` sweeps, 3 `c` scalings, 4 seeded random perturbations: the
spec's "roughly 12"). -/
theorem claim_C6_determinism :
    (∀ (fmt : ℝ → String) (points : List (ℝ × ℝ)),
      (fit_cmc_2 fmt points).cmc_value = (fit_cmc_2 fmt points).cmc_value) ∧
    (∀ (p0 : Fin 4 → ℝ) (xmin xmax : ℝ),
      (gdSeeds p0 xmin xmax).length = 11) :=
  ⟨fun _ _ => rfl, fun p0 xmin xmax => by simp [gdSeeds]⟩

theorem gridStep_cases (pts : List (ℚ × ℚ)) (acc : Option (ℚ × ℚ)) (c : ℚ)
    (p : ℚ × ℚ) (h : gridStep pts acc c = some p) :
    acc = some p ∨ p.2 = c := by
  cases acc with
  | none =>
      by_cases hcq : rightCount pts c < 2
      · simp only [gridStep, if_pos hcq] at h
        exact Option.noConfusion h
      · simp only [gridStep, if_neg hcq] at h
        injection h with h'
        rw [← h']
        exact Or.inr rfl
  | some b =>
      by_cases hcq : rightCount pts c < 2
      · simp only [gridStep, if_pos hcq] at h
        exact Or.inl h
      · simp only [gridStep, if_neg hcq] at h
        by_cases hlt : rightScore pts c < b.1
        · rw [if_pos hlt] at h
          injection h with h'
          rw [← h']
          exact Or.inr rfl
        · rw [if_neg hlt] at h
          exact Or.inl h

theorem gridFold_go (pts : List (ℚ × ℚ)) :
    ∀ (cands : List ℚ) (acc : Option (ℚ × ℚ)),
      (∀ q : ℚ × ℚ, acc = some q →
        2 ≤ rightCount pts q.2 ∧ q.1 = rightScore pts q.2) →
      (∀ p : ℚ × ℚ, List.foldl (gridStep pts) acc cands = some p →
        (2 ≤ rightCount pts p.2 ∧ p.1 = rightScore pts p.2) ∧
        (acc = some p ∨ p.2 ∈ cands)) ∧
      (∀ c ∈ cands, 2 ≤ rightCount pts c →
        ∃ p : ℚ × ℚ, List.foldl (gridStep pts) acc cands = some p ∧
          p.1 ≤ rightScore pts c) ∧
      (∀ q : ℚ × ℚ, acc = some q →
        ∃ p : ℚ × ℚ, List.foldl (gridStep pts) acc cands = some p ∧
          p.1 ≤ q.1) := by
  intro cands
  induction cands with
  | nil =>
      intro acc hacc
      refine ⟨?_, ?_, ?_⟩
      · intro p hp
        simp only [List.foldl_nil] at hp
        exact ⟨hacc p hp, Or.inl hp⟩
      · intro c hc
        exact absurd hc (List.not_mem_nil c)
      · intro q hq
        exact ⟨q, by simpa [List.foldl_nil] using hq, le_refl _⟩
  | cons c rest ih =>
      intro acc hacc
      simp only [List.foldl_cons]
      have hacc' : ∀ q : ℚ × ℚ, gridStep pts acc c = some q →
          2 ≤ rightCount pts q.2 ∧ q.1 = rightScore pts q.2 := by
        intro q hq
        cases acc with
        | none =>
            by_cases hcq : rightCount pts c < 2
            · simp only [gridStep, if_pos hcq] at hq
              exact Option.noConfusion hq
            · simp only [gridStep, if_neg hcq] at hq
              injection hq with hq'
              rw [← hq']
              exact ⟨not_lt.mp hcq, rfl⟩
        | some b =>
            by_cases hcq : rightCount pts c < 2
            · simp only [gridStep, if_pos hcq] at hq
              exact hacc q hq
            · simp only [gridStep, if_neg hcq] at hq
              by_cases hlt : rightScore pts c < b.1
              · rw [if_pos hlt] at hq
                injection hq with hq'
                rw [← hq']
                exact ⟨not_lt.mp hcq, rfl⟩
              · rw [if_neg hlt] at hq
                exact hacc q hq
      have IH := ih (gridStep pts acc c) hacc'
      refine ⟨?_, ?_, ?_⟩
      · intro p hp
        obtain ⟨hwf, hloc⟩ := IH.1 p hp
        refine ⟨hwf, ?_⟩
        rcases hloc with hstep | hmem
        · rcases gridStep_cases pts acc c p hstep with hA | hBc
          · exact Or.inl hA
          · exact Or.inr (by rw [hBc]; exact List.mem_cons_self _ _)
        · exact Or.inr (List.mem_cons_of_mem _ hmem)
      · intro c' hc' hq'
        rcases List.mem_cons.mp hc' with rfl | hmem
        · have hstep : ∃ b' : ℚ × ℚ, gridStep pts acc c' = some b' ∧
              b'.1 ≤ rightScore pts c' := by
            cases acc with
            | none =>
                refine ⟨(rightScore pts c', c'), ?_, le_refl _⟩
                simp only [gridStep, if_neg (not_lt.mpr hq')]
            | some b =>
                by_cases hlt : rightScore pts c' < b.1
                · refine ⟨(rightScore pts c', c'), ?_, le_refl _⟩
                  simp only [gridStep, if_neg (not_lt.mpr hq')]
                  rw [if_pos hlt]
                · refine ⟨b, ?_, not_lt.mp hlt⟩
                  simp only [gridStep, if_neg (not_lt.mpr hq')]
                  rw [if_neg hlt]
          obtain ⟨b', hb', hble⟩ := hstep
          obtain ⟨p, hp, hple⟩ := IH.2.2 b' hb'
          exact ⟨p, hp, le_trans hple hble⟩
        · exact IH.2.1 c' hmem hq'
      · intro q hq
        subst hq
        have hstep : ∃ b' : ℚ × ℚ, gridStep pts (some q) c = some b' ∧
            b'.1 ≤ q.1 := by
          by_cases hcq : rightCount pts c < 2
          · refine ⟨q, ?_, le_refl _⟩
            simp only [gridStep, if_pos hcq]
          · by_cases hlt : rightScore pts c < q.1
            · refine ⟨(rightScore pts c, c), ?_, le_of_lt hlt⟩
              simp only [gridStep, if_neg hcq]
              rw [if_pos hlt]
            · refine ⟨q, ?_, le_refl _⟩
              simp only [gridStep, if_neg hcq]
              rw [if_neg hlt]
        obtain ⟨b', hb', hble⟩ := hstep
        obtain ⟨p, hp, hple⟩ := IH.2.2 b' hb'
        exact ⟨p, hp, le_trans hple hble⟩

theorem mem_insertQ (a b : ℚ) (l : List ℚ) :
    b ∈ insertQ a l ↔ b = a ∨ b ∈ l := by
  induction l with
  | nil => simp [insertQ]
  | cons x rest ih =>
      by_cases h : a ≤ x
      · simp [insertQ, if_pos h]
      · simp only [insertQ, if_neg h, List.mem_cons, ih]
        tauto

theorem mem_sortQ (a : ℚ) (l : List ℚ) : a ∈ sortQ l ↔ a ∈ l := by
  induction l with
  | nil => simp [sortQ]
  | cons x rest ih =>
      simp only [sortQ, mem_insertQ, List.mem_cons, ih]

theorem x2_mem_candidates (pts : List (ℚ × ℚ)) (h5 : 5 ≤ pts.length) :
    (pts.map (fun p => p.1)).getD 2 0 ∈ cmcCandidates pts := by
  have hlen : (pts.map (fun p => p.1)).length = pts.length :=
    List.length_map _ _
  have h2 : 2 < (pts.map (fun p => p.1)).length := by omega
  have hx2 : (pts.map (fun p => p.1)).getD 2 0 =
      (pts.map (fun p => p.1))[2] := List.getD_eq_getElem _ _ h2
  have h0 : 0 < (((pts.map (fun p => p.1)).drop 2).take
      ((pts.map (fun p => p.1)).length - 4)).length := by
    simp only [List.length_take, List.length_drop]
    omega
  have hget : (((pts.map (fun p => p.1)).drop 2).take
      ((pts.map (fun p => p.1)).length - 4)).get ⟨0, h0⟩ =
      (pts.map (fun p => p.1))[2] := by
    rw [List.get_eq_getElem, List.getElem_take, List.getElem_drop]
    norm_num
  have hmem : (pts.map (fun p => p.1))[2] ∈
      ((pts.map (fun p => p.1)).drop 2).take
        ((pts.map (fun p => p.1)).length - 4) := by
    rw [← hget]
    exact List.get_mem _ 0 h0
  simp only [cmcCandidates]
  rw [hx2]
  exact List.mem_dedup.mpr ((mem_sortQ _ _).mpr (List.mem_append_left _ hmem))

theorem x2_qualified (pts : List (ℚ × ℚ))
    (hs : List.Pairwise (fun p q => p.1 ≤ q.1) pts) (h5 : 5 ≤ pts.length) :
    2 ≤ rightCount pts ((pts.map (fun p => p.1)).getD 2 0) := by
  have hlen : (pts.map (fun p => p.1)).length = pts.length :=
    List.length_map _ _
  have h2 : 2 < pts.length := by omega
  have h2' : 2 < (pts.map (fun p => p.1)).length := by omega
  have hx2 : (pts.map (fun p => p.1)).getD 2 0 = pts[2].1 := by
    rw [List.getD_eq_getElem _ _ h2', List.getElem_map]
  rw [hx2, rightCount, rightYs, List.length_map]
  have hdrop : pts.drop 2 = pts[2] :: pts.drop 3 :=
    List.drop_eq_getElem_cons h2
  have hle : ∀ a ∈ pts.drop 2, pts[2].1 ≤ a.1 := by
    have hpw : (pts.drop 2).Pairwise (fun p q => p.1 ≤ q.1) :=
      hs.sublist (List.drop_sublist 2 pts)
    rw [hdrop] at hpw ⊢
    intro a ha
    rcases List.mem_cons.mp ha with rfl | ha'
    · exact le_refl _
    · exact (List.pairwise_cons.mp hpw).1 a ha'
  have hfd : (pts.drop 2).filter (fun p => decide (pts[2].1 ≤ p.1)) =
      pts.drop 2 :=
    List.filter_eq_self.mpr (fun a ha => decide_eq_true (hle a ha))
  have hsub : ((pts.drop 2).filter
        (fun p => decide (pts[2].1 ≤ p.1))).Sublist
      (pts.filter (fun p => decide (pts[2].1 ≤ p.1))) :=
    (List.drop_sublist 2 pts).filter _
  have hlen2 : (pts.drop 2).length = pts.length - 2 := List.length_drop _ _
  have := hsub.length_le
  rw [hfd, hlen2] at this
  omega

/-- C2: on x-sorted data of length ≥ 5, the grid-search phase returns a
member of the candidate set (interior data x-values plus the `min(50, n)`
evenly spaced points, merged, sorted and deduplicated — `cmcCandidates`)
that has at least 2 right-side points, and whose right-side score
`Σ(y_right − mean(y_right))²` is minimal among all candidates with at least
2 right-side points; candidates with fewer than 2 right-side points are
skipped and never selected. -/
theorem claim_C2_grid_search (pts : List (ℚ × ℚ))
    (hs : List.Pairwise (fun p q => p.1 ≤ q.1) pts) (h5 : 5 ≤ pts.length) :
    gridSearchX0 pts ∈ cmcCandidates pts ∧
    2 ≤ rightCount pts (gridSearchX0 pts) ∧
    ∀ c ∈ cmcCandidates pts, 2 ≤ rightCount pts c →
      rightScore pts (gridSearchX0 pts) ≤ rightScore pts c := by
  have hx2mem := x2_mem_candidates pts h5
  have hx2q := x2_qualified pts hs h5
  have hgo := gridFold_go pts (cmcCandidates pts) none (by simp)
  obtain ⟨p, hp, hple⟩ := hgo.2.1 _ hx2mem hx2q
  have hwf := hgo.1 p hp
  have hmem : p.2 ∈ cmcCandidates pts := by
    rcases hwf.2 with hnone | hmem
    · exact Option.noConfusion hnone
    · exact hmem
  have hres : gridSearchX0 pts = p.2 := by
    rw [gridSearchX0, show gridFold pts (cmcCandidates pts) = some p from hp]
  refine ⟨hres ▸ hmem, hres ▸ hwf.1.1, ?_⟩
  intro c hc hq
  obtain ⟨p', hp', hple'⟩ := hgo.2.1 c hc hq
  rw [hp] at hp'
  injection hp' with hpp
  rw [hres, ← hwf.1.2, hpp]
  exact hple'

/-- Closed witness for C2: the theorem applied to a concrete sorted 5-point
input. -/
theorem claim_C2_witness :
    (5 ≤ ([((0 : ℚ), (10 : ℚ)), (1, 8), (2, 6), (3, 5), (4, 5)] :
      List (ℚ × ℚ)).length) ∧
    gridSearchX0 [((0 : ℚ), (10 : ℚ)), (1, 8), (2, 6), (3, 5), (4, 5)] ∈
      cmcCandidates [((0 : ℚ), (10 : ℚ)), (1, 8), (2, 6), (3, 5), (4, 5)] :=
  ⟨by norm_num,
   (claim_C2_grid_search [((0 : ℚ), (10 : ℚ)), (1, 8), (2, 6), (3, 5), (4, 5)]
     (by norm_num [List.pairwise_cons]) (by norm_num)).1⟩

theorem mem_insertRowByFirst (r s : List ℚ) (l : List (List ℚ)) :
    s ∈ insertRowByFirst r l ↔ s = r ∨ s ∈ l := by
  induction l with
  | nil => simp [insertRowByFirst]
  | cons x rest ih =>
      by_cases h : r.getD 0 0 ≤ x.getD 0 0
      · rw [insertRowByFirst, if_pos h]
        simp only [List.mem_cons]
      · rw [insertRowByFirst, if_neg h]
        simp only [List.mem_cons, ih]
        tauto

theorem mem_sortRowsByFirst (s : List ℚ) (l : List (List ℚ)) :
    s ∈ sortRowsByFirst l ↔ s ∈ l := by
  induction l with
  | nil => simp [sortRowsByFirst]
  | cons x rest ih =>
      simp only [sortRowsByFirst, mem_insertRowByFirst, List.mem_cons, ih]

theorem length_insertRowByFirst (r : List ℚ) (l : List (List ℚ)) :
    (insertRowByFirst r l).length = l.length + 1 := by
  induction l with
  | nil => rfl
  | cons x rest ih =>
      by_cases h : r.getD 0 0 ≤ x.getD 0 0
      · rw [insertRowByFirst, if_pos h]
        simp
      · rw [insertRowByFirst, if_neg h]
        simp [ih]

theorem length_sortRowsByFirst (l : List (List ℚ)) :
    (sortRowsByFirst l).length = l.length := by
  induction l with
  | nil => rfl
  | cons x rest ih =>
      simp [sortRowsByFirst, length_insertRowByFirst, ih]

theorem sorted_head_len (points : List (List ℚ)) (w : ℕ)
    (hne : points ≠ []) (hw : ∀ r ∈ points, r.length = w) :
    ((sortRowsByFirst points).headD []).length = w := by
  cases hsort : sortRowsByFirst points with
  | nil =>
      have := length_sortRowsByFirst points
      rw [hsort] at this
      exact absurd (List.length_eq_zero.mp this.symm) hne
  | cons r t =>
      have hr : r ∈ points := (mem_sortRowsByFirst r points).mp
        (by rw [hsort]; exact List.mem_cons_self _ _)
      simpa using hw r hr

theorem seriesLabelsOf_length (columns : List String) (sc : ℕ)
    (pattern : ℕ → String) :
    (columns.length ≤ 1 → (seriesLabelsOf columns sc pattern).length = sc) ∧
    (1 < columns.length →
      (seriesLabelsOf columns sc pattern).length = columns.length - 1) := by
  constructor
  · intro h
    rw [seriesLabelsOf, if_neg (not_lt.mpr h)]
    simp
  · intro h
    rw [seriesLabelsOf, if_pos h]
    simp

theorem seriesLabelsOf_synth (columns : List String) (sc : ℕ)
    (pattern : ℕ → String) (h : columns.length ≤ 1) :
    seriesLabelsOf columns sc pattern = (List.range sc).map pattern := by
  rw [seriesLabelsOf, if_neg (not_lt.mpr h)]

theorem photo_ok_labels (fmt : ℚ → String) (points : List (List ℚ))
    (columns : List String) (r : PhotoViResult)
    (h : fit_photoelectric_vi fmt points columns = .ok r) :
    r.series_labels = seriesLabelsOf columns
      (((sortRowsByFirst points).headD []).length - 1) photoPattern ∧
    r.series_count = ((sortRowsByFirst points).headD []).length - 1 := by
  simp only [fit_photoelectric_vi] at h
  split at h
  · exact Except.noConfusion h
  · split at h
    · exact Except.noConfusion h
    · injection h with h'
      rw [← h']
      exact ⟨rfl, rfl⟩

theorem photo_ok_char (fmt : ℚ → String) (points : List (List ℚ))
    (columns : List String)
    (h1 : ¬ ((sortRowsByFirst points).headD []).length - 1 < 1)
    (h2 : ¬ (seriesLabelsOf columns
        (((sortRowsByFirst points).headD []).length - 1) photoPattern).length
      < ((sortRowsByFirst points).headD []).length - 1) :
    ∃ r, fit_photoelectric_vi fmt points columns = .ok r := by
  rw [fit_photoelectric_vi, if_neg h1, if_neg h2]
  exact ⟨_, rfl⟩

theorem forced_ok_labels (fmt : ℚ → String) (points : List (List ℚ))
    (columns : List String) (r : ForcedResult)
    (h : fit_pohls_forced fmt points columns = .ok r) :
    r.series_labels = seriesLabelsOf columns
      (((sortRowsByFirst points).headD []).length - 1) forcedPattern ∧
    r.series_count = ((sortRowsByFirst points).headD []).length - 1 := by
  simp only [fit_pohls_forced] at h
  split at h
  · exact Except.noConfusion h
  · split at h
    · exact Except.noConfusion h
    · injection h with h'
      rw [← h']
      exact ⟨rfl, rfl⟩

theorem damped_ok_labels (lnQ : ℚ → ℚ) (fmt : ℚ → String)
    (points : List (List ℚ)) (columns : List String) (r : DampedResult)
    (h : fit_pohls_damped lnQ fmt points columns = .ok r) :
    r.series_labels = seriesLabelsOf columns
      (((sortRowsByFirst points).headD []).length - 1) dampedPattern ∧
    r.series_count = ((sortRowsByFirst points).headD []).length - 1 := by
  simp only [fit_pohls_damped] at h
  split at h
  · exact Except.noConfusion h
  · split at h
    · exact Except.noConfusion h
    · injection h with h'
      rw [← h']
      exact ⟨rfl, rfl⟩

/-- Counterexample to C8 as stated: supplied column headers are never
validated against the row width, so a photoelectric request with rows of
width 3 but 5 column names returns `series_labels` of length 4 ≠ 3 − 1
(while `series_count` is 2). -/
theorem claim_C8_counterexample :
    ([[(0 : ℚ), 2, 5], [1, 1, 4], [2, -1, 3]]).map List.length = [3, 3, 3] ∧
    (exOk (fit_photoelectric_vi fmt0 [[(0 : ℚ), 2, 5], [1, 1, 4], [2, -1, 3]]
      ["V", "a", "b", "c", "d"])).map (fun r => r.series_labels.length) =
      some 4 ∧
    (4 : ℕ) ≠ 3 - 1 := by
  have hhead : ((sortRowsByFirst
      [[(0 : ℚ), 2, 5], [1, 1, 4], [2, -1, 3]]).headD []).length = 3 :=
    sorted_head_len _ 3 (by simp) (by simp)
  have hlab : (seriesLabelsOf ["V", "a", "b", "c", "d"]
      (((sortRowsByFirst [[(0 : ℚ), 2, 5], [1, 1, 4],
        [2, -1, 3]]).headD []).length - 1) photoPattern).length = 4 := by
    rw [(seriesLabelsOf_length _ _ _).2 (by simp)]
    simp
  obtain ⟨r, hr⟩ := photo_ok_char fmt0
    [[(0 : ℚ), 2, 5], [1, 1, 4], [2, -1, 3]] ["V", "a", "b", "c", "d"]
    (by rw [hhead]; norm_num) (by rw [hlab, hhead]; norm_num)
  refine ⟨by simp, ?_, by norm_num⟩
  rw [hr]
  simp only [exOk, Option.map_some']
  rw [(photo_ok_labels _ _ _ r hr).1, hlab]

/-- C8 (amended): for each multi-series estimator on uniform row width `w`,
a returned result's `series_labels` has length `w − 1` when the labels are
synthesised (`columns` empty or a single header) and when the supplied
`columns` has length exactly `w`; synthesised labels follow the per-mode
patterns `Series i` / `I_d = i` / `Damping i`.  When `columns` supplies
`L > 1` headers the returned length is `L − 1`, which differs from `w − 1`
whenever `L ≠ w` (headers are not validated against the row width; for
`2 ≤ L < w` the loop fails with an index error instead of returning). -/
theorem claim_C8_series_labels (w : ℕ) (points : List (List ℚ))
    (columns : List String) (hne : points ≠ [])
    (hw : ∀ row ∈ points, row.length = w) :
    ((columns.length ≤ 1 ∨ columns.length = w) →
      (∀ (fmt : ℚ → String) (r : PhotoViResult),
        fit_photoelectric_vi fmt points columns = .ok r →
        r.series_labels.length = w - 1 ∧ r.series_count = w - 1) ∧
      (∀ (lnQ : ℚ → ℚ) (fmt : ℚ → String) (r : DampedResult),
        fit_pohls_damped lnQ fmt points columns = .ok r →
        r.series_labels.length = w - 1 ∧ r.series_count = w - 1) ∧
      (∀ (fmt : ℚ → String) (r : ForcedResult),
        fit_pohls_forced fmt points columns = .ok r →
        r.series_labels.length = w - 1 ∧ r.series_count = w - 1)) ∧
    (columns.length ≤ 1 →
      (∀ (fmt : ℚ → String) (r : PhotoViResult),
        fit_photoelectric_vi fmt points columns = .ok r →
        r.series_labels = (List.range (w - 1)).map photoPattern) ∧
      (∀ (lnQ : ℚ → ℚ) (fmt : ℚ → String) (r : DampedResult),
        fit_pohls_damped lnQ fmt points columns = .ok r →
        r.series_labels = (List.range (w - 1)).map dampedPattern) ∧
      (∀ (fmt : ℚ → String) (r : ForcedResult),
        fit_pohls_forced fmt points columns = .ok r →
        r.series_labels = (List.range (w - 1)).map forcedPattern)) ∧
    (1 < columns.length →
      (∀ (fmt : ℚ → String) (r : PhotoViResult),
        fit_photoelectric_vi fmt points columns = .ok r →
        r.series_labels.length = columns.length - 1) ∧
      (∀ (lnQ : ℚ → ℚ) (fmt : ℚ → String) (r : DampedResult),
        fit_pohls_damped lnQ fmt points columns = .ok r →
        r.series_labels.length = columns.length - 1) ∧
      (∀ (fmt : ℚ → String) (r : ForcedResult),
        fit_pohls_forced fmt points columns = .ok r →
        r.series_labels.length = columns.length - 1)) := by
  have hhead : ((sortRowsByFirst points).headD []).length = w :=
    sorted_head_len points w hne hw
  have hlen : ∀ pattern : ℕ → String,
      (columns.length ≤ 1 ∨ columns.length = w) →
      (seriesLabelsOf columns
        (((sortRowsByFirst points).headD []).length - 1) pattern).length =
      w - 1 := by
    intro pattern hcase
    rcases hcase with hc | hc
    · rw [(seriesLabelsOf_length _ _ _).1 hc, hhead]
    · rcases Nat.lt_or_ge 1 columns.length with h1 | h1
      · rw [(seriesLabelsOf_length _ _ _).2 h1, hc]
      · rw [(seriesLabelsOf_length _ _ _).1 h1, hhead]
  refine ⟨?_, ?_, ?_⟩
  · intro hcase
    refine ⟨?_, ?_, ?_⟩
    · intro fmt r hr
      obtain ⟨hl, hc⟩ := photo_ok_labels fmt points columns r hr
      rw [hl, hc, hlen photoPattern hcase, hhead]
      exact ⟨rfl, rfl⟩
    · intro lnQ fmt r hr
      obtain ⟨hl, hc⟩ := damped_ok_labels lnQ fmt points columns r hr
      rw [hl, hc, hlen dampedPattern hcase, hhead]
      exact ⟨rfl, rfl⟩
    · intro fmt r hr
      obtain ⟨hl, hc⟩ := forced_ok_labels fmt points columns r hr
      rw [hl, hc, hlen forcedPattern hcase, hhead]
      exact ⟨rfl, rfl⟩
  · intro hc
    refine ⟨?_, ?_, ?_⟩
    · intro fmt r hr
      rw [(photo_ok_labels fmt points columns r hr).1,
        seriesLabelsOf_synth _ _ _ hc, hhead]
    · intro lnQ fmt r hr
      rw [(damped_ok_labels lnQ fmt points columns r hr).1,
        seriesLabelsOf_synth _ _ _ hc, hhead]
    · intro fmt r hr
      rw [(forced_ok_labels fmt points columns r hr).1,
        seriesLabelsOf_synth _ _ _ hc, hhead]
  · intro hc
    refine ⟨?_, ?_, ?_⟩
    · intro fmt r hr
      rw [(photo_ok_labels fmt points columns r hr).1,
        (seriesLabelsOf_length _ _ _).2 hc]
    · intro lnQ fmt r hr
      rw [(damped_ok_labels lnQ fmt points columns r hr).1,
        (seriesLabelsOf_length _ _ _).2 hc]
    · intro fmt r hr
      rw [(forced_ok_labels fmt points columns r hr).1,
        (seriesLabelsOf_length _ _ _).2 hc]

/-- Closed witness for C8: the amended theorem applied to a 2-column
photoelectric request with no supplied headers. -/
theorem claim_C8_witness :
    (∀ row ∈ [[(0 : ℚ), 2], [1, -1]], row.length = 2) ∧
    (exOk (fit_photoelectric_vi fmt0 [[(0 : ℚ), 2], [1, -1]] [])).map
      (fun r => (r.series_labels, r.series_count)) =
      some (["Series 1"], 1) := by
  refine ⟨by simp, ?_⟩
  have hhead : ((sortRowsByFirst [[(0 : ℚ), 2], [1, -1]]).headD []).length
      = 2 := sorted_head_len _ 2 (by simp) (by simp)
  obtain ⟨r, hr⟩ := photo_ok_char fmt0 [[(0 : ℚ), 2], [1, -1]] []
    (by rw [hhead]; norm_num)
    (by rw [(seriesLabelsOf_length _ _ _).1 (by simp)]; exact lt_irrefl _)
  rw [hr]
  simp only [exOk, Option.map_some']
  have h1 := (claim_C8_series_labels 2 [[(0 : ℚ), 2], [1, -1]] []
    (by simp) (by simp)).2.1 (by simp) |>.1 fmt0 r hr
  have h2 := ((claim_C8_series_labels 2 [[(0 : ℚ), 2], [1, -1]] []
    (by simp) (by simp)).1 (Or.inl (by simp))).1 fmt0 r hr
  rw [h1, h2.2]
  decide

theorem dampedGo_all_skip (lnQ : ℚ → ℚ) (fmt : ℚ → String) (ts : List ℚ)
    (rows : List (List ℚ)) (labels : List String) :
    ∀ idxs : List ℕ, (∀ i ∈ idxs, i < labels.length) →
      (∀ i ∈ idxs,
        ((ts.zip (colOf rows (i + 1))).filter
          (fun p => 0 < p.2)).length < 2) →
      dampedGo lnQ fmt ts rows labels idxs = .ok ([], []) := by
  intro idxs
  induction idxs with
  | nil => intro _ _; rfl
  | cons i rest ih =>
      intro hlen hskip
      have hi : i < labels.length := hlen i (List.mem_cons_self _ _)
      simp only [dampedGo]
      rw [dif_pos hi, if_pos (hskip i (List.mem_cons_self _ _))]
      exact ih (fun j hj => hlen j (List.mem_cons_of_mem _ hj))
        (fun j hj => hskip j (List.mem_cons_of_mem _ hj))

theorem dampedGo_keys (lnQ : ℚ → ℚ) (fmt : ℚ → String) (ts : List ℚ)
    (rows : List (List ℚ)) (labels : List String) :
    ∀ (idxs : List ℕ) (fits : List (String × DampedFit))
      (parts : List String),
      dampedGo lnQ fmt ts rows labels idxs = .ok (fits, parts) →
      fits.map Prod.fst =
        (idxs.filter (fun i =>
          decide (2 ≤ ((ts.zip (colOf rows (i + 1))).filter
            (fun p => 0 < p.2)).length))).map
          (fun i => labels.getD i "") := by
  intro idxs
  induction idxs with
  | nil =>
      intro fits parts h
      simp only [dampedGo] at h
      injection h with h'
      injection h' with h1 h2
      rw [← h1]
      simp
  | cons i rest ih =>
      intro fits parts h
      simp only [dampedGo] at h
      split at h
      · rename_i hi
        split at h
        · rename_i hskip
          rw [List.filter_cons,
            if_neg (by simpa using Nat.not_le.mpr hskip)]
          exact ih fits parts h
        · rename_i hskip
          split at h
          · exact Except.noConfusion h
          · rename_i res heq
            split at h
            · exact Except.noConfusion h
            · rename_i fits2 parts2 heq2
              injection h with h'
              injection h' with h1 h2
              rw [← h1]
              rw [List.filter_cons,
                if_pos (by simpa using Nat.not_lt.mp hskip)]
              simp only [List.map_cons]
              have hrec := ih fits2 parts2 (by rw [heq2])
              rw [hrec, List.getD_eq_getElem labels "" hi,
                List.get_eq_getElem]
      · exact Except.noConfusion h

/-- C10: in `fit_pohls_damped`, a series with fewer than 2 strictly
positive amplitudes is silently skipped — the keys of the returned
`series_fits` are exactly the labels of the series with at least 2 positive
amplitudes, while `series_labels` and `series_count` still cover every
series — and when no series qualifies the call still succeeds with an empty
`series_fits` and the exact equation string `"No valid fits"`. -/
theorem claim_C10_damped_skip (w : ℕ) (points : List (List ℚ))
    (columns : List String) (lnQ : ℚ → ℚ) (fmt : ℚ → String)
    (hne : points ≠ []) (hw : ∀ row ∈ points, row.length = w) (h2 : 2 ≤ w)
    (hL : w - 1 ≤ (seriesLabelsOf columns (w - 1) dampedPattern).length) :
    (∀ r, fit_pohls_damped lnQ fmt points columns = .ok r →
      r.series_fits.map Prod.fst =
        ((List.range (w - 1)).filter
          (fun i => decide (2 ≤ dampedPosCount points i))).map
          (fun i =>
            (seriesLabelsOf columns (w - 1) dampedPattern).getD i "") ∧
      r.series_labels = seriesLabelsOf columns (w - 1) dampedPattern ∧
      r.series_count = w - 1 ∧
      (∀ i, i < w - 1 →
        (seriesLabelsOf columns (w - 1) dampedPattern).getD i "" ∈
          r.series_labels)) ∧
    ((∀ i, i < w - 1 → dampedPosCount points i < 2) →
      ∃ r, fit_pohls_damped lnQ fmt points columns = .ok r ∧
        r.series_fits = [] ∧ r.equation = "No valid fits" ∧
        r.series_labels = seriesLabelsOf columns (w - 1) dampedPattern ∧
        r.series_count = w - 1) := by
  have hhead : ((sortRowsByFirst points).headD []).length = w :=
    sorted_head_len points w hne hw
  constructor
  · intro r hr
    have hlab := damped_ok_labels lnQ fmt points columns r hr
    rw [hhead] at hlab
    refine ⟨?_, hlab.1, hlab.2, ?_⟩
    · simp only [fit_pohls_damped, hhead] at hr
      split at hr
      · exact Except.noConfusion hr
      · split at hr
        · exact Except.noConfusion hr
        · rename_i fits2 parts2 heq
          injection hr with hr'
          rw [← hr']
          simp only [dampedPosCount]
          exact dampedGo_keys lnQ fmt _ _ _ _ fits2 parts2 (by rw [heq])
    · intro i hi
      rw [hlab.1, List.getD_eq_getElem _ "" (lt_of_lt_of_le hi hL)]
      exact List.getElem_mem _
  · intro hskip
    simp only [fit_pohls_damped, hhead]
    rw [if_neg (by omega : ¬ w - 1 < 1),
      dampedGo_all_skip lnQ fmt _ _ _ (List.range (w - 1))
        (fun i hi => lt_of_lt_of_le (List.mem_range.mp hi) hL)
        (fun i hi => by
          have := hskip i (List.mem_range.mp hi)
          simpa [dampedPosCount] using this)]
    exact ⟨_, rfl, rfl, rfl, rfl, rfl⟩

/-- Closed witness for C10: a 3-column damped-oscillation input whose two
amplitude series have no positive values at all — both are skipped, the
result still succeeds, and it reports `"No valid fits"` with both labels
present. -/
theorem claim_C10_witness :
    (∀ i, i < 3 - 1 →
      dampedPosCount [[(0 : ℚ), -1, -1], [1, 0, -2], [2, 0, -3]] i < 2) ∧
    (∃ r, fit_pohls_damped id fmt0
        [[(0 : ℚ), -1, -1], [1, 0, -2], [2, 0, -3]] [] = .ok r ∧
      r.series_fits = [] ∧ r.equation = "No valid fits" ∧
      r.series_labels = seriesLabelsOf [] (3 - 1) dampedPattern ∧
      r.series_count = 3 - 1) := by
  have hskip : ∀ i, i < 3 - 1 →
      dampedPosCount [[(0 : ℚ), -1, -1], [1, 0, -2], [2, 0, -3]] i < 2 := by
    intro i hi
    interval_cases i <;>
      norm_num [dampedPosCount, colOf, sortRowsByFirst, insertRowByFirst,
        List.zip, List.getD]
  refine ⟨hskip, ?_⟩
  exact (claim_C10_damped_skip 3
    [[(0 : ℚ), -1, -1], [1, 0, -2], [2, 0, -3]] [] id fmt0
    (by simp) (by simp) (by norm_num)
    (by simp [seriesLabelsOf])).2 hskip

end GraphFit
